import Mathlib

set_option maxRecDepth 10000

/-!
Verification development for the swap-routing and concentrated-liquidity
pricing engine of the repository (osmosis-frontend fork).

Part 1: the fixed-point decimal arithmetic.  The repository performs all
money math with the external `@keplr-wallet/unit` `Dec` type (a port of the
cosmos-sdk 18-decimal fixed-point decimal) and the repository's own `BigDec`
(the same construction at 36 decimals).  The spec pins these semantics
("exact-precision decimal with truncating/round-up/round-down division
variants").  Modelled from the spec: `Dec` is an integer scaled by `10^18`
(`BigDec` by `10^36`); `mul`/`quo` round half away from zero at the last
retained digit, the `Truncate` variants truncate toward zero, and the
`RoundUp` variants round away from zero (toward zero for negatives), with
the quotient first formed by truncated division at doubled scale.  This
model reproduces, bit for bit, all seventeen `calcOutGivenIn` reference
fixtures of the repository's test suite (amounts and 18-decimal final
prices), which is the evidence of faithfulness.
-/

/-- Scale factor of the 18-decimal fixed point type, as a natural. -/
def P18 : Nat := 1000000000000000000

/-- Scale factor of the 18-decimal fixed point type, as an integer. -/
def P18Z : Int := 1000000000000000000

/-- Scale factor of the 36-decimal `BigDec` type, as a natural. -/
def P36 : Nat := P18 * P18

/-- Scale factor of the 36-decimal `BigDec` type, as an integer. -/
def P36Z : Int := P18Z * P18Z

/-- Drop a factor `p` from `x`, rounding half away from zero (`chopPrecisionAndRound`),
here for naturals. -/
def chopRoundNat (x p : Nat) : Nat :=
  x / p + (if p / 2 ≤ x % p then 1 else 0)

/-- Drop a factor `p` from `x`, rounding half away from zero (`chopPrecisionAndRound`). -/
def chopRound (x : Int) (p : Nat) : Int :=
  if x < 0 then -(chopRoundNat x.natAbs p : Nat) else (chopRoundNat x.natAbs p : Nat)

/-- Drop a factor `p` from `x`, truncating toward zero (`chopPrecisionAndTruncate`). -/
def chopTrunc (x : Int) (p : Nat) : Int :=
  if x < 0 then -((x.natAbs / p : Nat) : Int) else ((x.natAbs / p : Nat) : Int)

/-- Drop a factor `p` from `x`, rounding away from zero for positives and toward
zero for negatives (`chopPrecisionAndRoundUp`). -/
def chopRoundUp (x : Int) (p : Nat) : Int :=
  if x < 0 then -((x.natAbs / p : Nat) : Int)
  else ((x.natAbs / p + (if x.natAbs % p = 0 then 0 else 1) : Nat) : Int)

/-- Truncated integer division (toward zero), the semantics of the bignum
`divide` used by the decimal library. -/
def tdiv (a b : Int) : Int :=
  if (a < 0 ↔ b < 0) then ((a.natAbs / b.natAbs : Nat) : Int)
  else -((a.natAbs / b.natAbs : Nat) : Int)

/-- The 18-decimal fixed-point decimal: `val` is the value scaled by `10^18`. -/
structure Dec where
  val : Int
deriving DecidableEq

/-- Embed an integer as a `Dec`. -/
def Dec.ofInt (n : Int) : Dec := ⟨n * P18Z⟩

/-- Exact addition. -/
def Dec.add (a b : Dec) : Dec := ⟨a.val + b.val⟩

/-- Exact subtraction. -/
def Dec.sub (a b : Dec) : Dec := ⟨a.val - b.val⟩

/-- Negation. -/
def Dec.neg (a : Dec) : Dec := ⟨-a.val⟩

/-- Absolute value. -/
def Dec.abs (a : Dec) : Dec := ⟨|a.val|⟩

/-- Multiplication rounding half away from zero at the 18th decimal. -/
def Dec.mul (a b : Dec) : Dec := ⟨chopRound (a.val * b.val) P18⟩

/-- Multiplication truncating toward zero at the 18th decimal. -/
def Dec.mulTruncate (a b : Dec) : Dec := ⟨chopTrunc (a.val * b.val) P18⟩

/-- Division rounding half away from zero at the 18th decimal. -/
def Dec.quo (a b : Dec) : Dec := ⟨chopRound (tdiv (a.val * P36Z) b.val) P18⟩

/-- Division truncating toward zero at the 18th decimal. -/
def Dec.quoTruncate (a b : Dec) : Dec := ⟨chopTrunc (tdiv (a.val * P36Z) b.val) P18⟩

/-- Division rounding up (away from zero) at the 18th decimal. -/
def Dec.quoRoundUp (a b : Dec) : Dec := ⟨chopRoundUp (tdiv (a.val * P36Z) b.val) P18⟩

/-- Truncate to an integer (toward zero). -/
def Dec.truncate (a : Dec) : Int := chopTrunc a.val P18

/-- Round up to an integer-valued `Dec` (ceiling for positives). -/
def Dec.roundUpDec (a : Dec) : Dec := ⟨chopRoundUp a.val P18 * P18Z⟩

/-- Round to the nearest integer, half away from zero. -/
def Dec.roundInt (a : Dec) : Int := chopRound a.val P18

/-- Inner loop of the library's fast exponentiation for `Dec.pow`: while `1 < i`,
square the base each step, multiplying it into the accumulator when `i` is odd. -/
def Dec.powLoop : Nat → Dec → Dec → Nat → Dec
  | 0, base, tmp, _ => base.mul tmp
  | fuel + 1, base, tmp, i =>
    if i ≤ 1 then base.mul tmp
    else Dec.powLoop fuel (base.mul base) (if i % 2 = 1 then tmp.mul base else tmp) (i / 2)

/-- Natural power of a `Dec` by the library's fast exponentiation (each
intermediate product rounds at 18 decimals). -/
def Dec.powNat (a : Dec) (n : Nat) : Dec :=
  if n = 0 then Dec.ofInt 1 else Dec.powLoop n a (Dec.ofInt 1) n

/-- Integer power of a `Dec`; a negative exponent inverts via `quo`. -/
def Dec.pow (a : Dec) (n : Int) : Dec :=
  if n < 0 then (Dec.ofInt 1).quo (a.powNat n.natAbs) else a.powNat n.natAbs

/-- The 36-decimal fixed-point decimal of the repository's `BigDec`. -/
structure BigDec where
  val : Int
deriving DecidableEq

/-- Embed an integer as a `BigDec`. -/
def BigDec.ofInt (n : Int) : BigDec := ⟨n * P36Z⟩

/-- Widen a `Dec` to a `BigDec` (exact). -/
def BigDec.ofDec (d : Dec) : BigDec := ⟨d.val * P18Z⟩

/-- Exact addition. -/
def BigDec.add (a b : BigDec) : BigDec := ⟨a.val + b.val⟩

/-- Exact subtraction. -/
def BigDec.sub (a b : BigDec) : BigDec := ⟨a.val - b.val⟩

/-- Multiplication rounding half away from zero at the 36th decimal. -/
def BigDec.mul (a b : BigDec) : BigDec := ⟨chopRound (a.val * b.val) P36⟩

/-- Division rounding half away from zero at the 36th decimal. -/
def BigDec.quo (a b : BigDec) : BigDec := ⟨chopRound (tdiv (a.val * (P36Z * P36Z)) b.val) P36⟩

/-- Inner loop of fast exponentiation for `BigDec.pow`. -/
def BigDec.powLoop : Nat → BigDec → BigDec → Nat → BigDec
  | 0, base, tmp, _ => base.mul tmp
  | fuel + 1, base, tmp, i =>
    if i ≤ 1 then base.mul tmp
    else BigDec.powLoop fuel (base.mul base) (if i % 2 = 1 then tmp.mul base else tmp) (i / 2)

/-- Natural power of a `BigDec`. -/
def BigDec.powNat (a : BigDec) (n : Nat) : BigDec :=
  if n = 0 then BigDec.ofInt 1 else BigDec.powLoop n a (BigDec.ofInt 1) n

/-- Narrow a `BigDec` to a `Dec`.  Modelled from the spec: the repository's
`BigDec.toDec`, mirroring the chain's `osmomath.BigDec.Dec()`, truncates the
eighteen extra fractional digits toward zero. -/
def BigDec.toDec (b : BigDec) : Dec := ⟨chopTrunc b.val P18⟩

example : (Dec.ofInt 3).mul ((Dec.ofInt 1).quo (Dec.ofInt 10)) = ⟨300000000000000000⟩ := by decide

example : ((Dec.ofInt 10).pow (-4)).val = 100000000000000 := by decide

example : ((Dec.ofInt 10).pow (-19)).val = 0 := by decide

/-!
Part 2: errors, constants, `math.ts` and `tick.ts` of
`src/packages/math/src/pool/concentrated/`.  Loops are given explicit fuel
(structural recursion) so that every definition evaluates in the kernel; a
loop that would run out of fuel returns its current state or an `outOfFuel`
error, and fuel is chosen large enough at every call site that this never
happens on the inputs considered.
-/

/-- Decidable equality for `Except`, needed to settle concrete evaluations
of the fallible operations by `decide`. -/
instance {ε α : Type} [DecidableEq ε] [DecidableEq α] : DecidableEq (Except ε α) := fun a b =>
  match a, b with
  | .error e, .error f =>
    if h : e = f then isTrue (by rw [h]) else isFalse (by intro c; cases c; exact h rfl)
  | .ok x, .ok y =>
    if h : x = y then isTrue (by rw [h]) else isFalse (by intro c; cases c; exact h rfl)
  | .error _, .ok _ => isFalse (by intro c; cases c)
  | .ok _, .error _ => isFalse (by intro c; cases c)

/-- Error classes thrown by the concentrated-liquidity math.  `tickOverflow`
is the repository's `TickOverflowError`; the others are the fatal range or
invariant errors thrown via plain `Error`. -/
inductive CLError where
  | tickOverflow
  | exponentOutOfRange
  | tickOutOfRange
  | priceOutOfRange
  | priceNegative
  | priceNotWithinBounds
  | tickNotWithinBounds
  | swapFeeNegative
  | feeChargeNegative
  | outOfFuel
deriving DecidableEq

/-- Modelled from the spec: `const.ts` of the concentrated-liquidity math
package is not under `src/`; its constants are pinned by the tick-bound
multipliers 18 and 38 in `tick.ts` and by the reference fixtures.
The global maximum spot price, `10^38`. -/
def maxSpotPrice : Dec := Dec.ofInt (10 ^ 38)

/-- Modelled from the spec: the global minimum spot price, `10^-18`. -/
def minSpotPrice : Dec := ⟨1⟩

/-- Modelled from the spec: the smallest representable positive decimal,
`10^-18`, used as the swap-loop termination threshold. -/
def smallestDec : Dec := ⟨1⟩

/-- Modelled from the spec: upper bound of the valid exponent-at-price-one range. -/
def exponentAtPriceOneMax : Int := -1

/-- Modelled from the spec: lower bound of the valid exponent-at-price-one range. -/
def exponentAtPriceOneMin : Int := -12

/-- Modelled from the spec: the external `DecUtils.getTenExponentN`, a power
of ten as a `Dec` (zero once the exponent falls below `-18`). -/
def getTenExponentN (n : Int) : Dec := (Dec.ofInt 10).pow n

/-- Amount of token0 between two sqrt prices for a given liquidity
(`calcAmount0Delta` of `math.ts`). -/
def calcAmount0Delta (liquidity sqrtPriceA sqrtPriceB : Dec) (roundUp : Bool) : Dec :=
  let lo := if sqrtPriceB.val < sqrtPriceA.val then sqrtPriceB else sqrtPriceA
  let hi := if sqrtPriceB.val < sqrtPriceA.val then sqrtPriceA else sqrtPriceB
  let diff := hi.sub lo
  let denom := lo.mul hi
  if roundUp then ((liquidity.mul diff).quo denom).roundUpDec
  else (liquidity.mul diff).quo denom

/-- Amount of token1 between two sqrt prices for a given liquidity
(`calcAmount1Delta` of `math.ts`). -/
def calcAmount1Delta (liquidity sqrtPriceA sqrtPriceB : Dec) (roundUp : Bool) : Dec :=
  let lo := if sqrtPriceB.val < sqrtPriceA.val then sqrtPriceB else sqrtPriceA
  let hi := if sqrtPriceB.val < sqrtPriceA.val then sqrtPriceA else sqrtPriceB
  let diff := hi.sub lo
  if roundUp then (liquidity.mul diff).roundUpDec
  else liquidity.mul diff

/-- Next sqrt price after consuming a token0 input amount, rounding up
(`getNextSqrtPriceFromAmount0InRoundingUp` of `math.ts`). -/
def getNextSqrtPriceFromAmount0InRoundingUp (sqrtPriceCurrent liquidity amountRemaining : Dec) : Dec :=
  if amountRemaining.val = 0 then sqrtPriceCurrent
  else
    let product := amountRemaining.mul sqrtPriceCurrent
    let denom := liquidity.add product
    (liquidity.mul sqrtPriceCurrent).quoRoundUp denom

/-- Next sqrt price after consuming a token1 input amount, rounding down
(`getNextSqrtPriceFromAmount1InRoundingDown` of `math.ts`). -/
def getNextSqrtPriceFromAmount1InRoundingDown (sqrtPriceCurrent liquidity amountRemaining : Dec) : Dec :=
  sqrtPriceCurrent.add (amountRemaining.quoTruncate liquidity)

/-- Fee charged on one swap step (`getFeeChargePerSwapStepOutGivenIn` of
`math.ts`): a negative swap fee or a negative computed fee throws; a zero
swap fee short-circuits to zero. -/
def getFeeChargePerSwapStepOutGivenIn (hasReachedTarget : Bool)
    (amountIn amountSpecifiedRemaining swapFee : Dec) : Except CLError Dec :=
  if swapFee.val < 0 then .error .swapFeeNegative
  else if swapFee.val = 0 then .ok (Dec.ofInt 0)
  else
    let feeChargeTotal :=
      if hasReachedTarget then (amountIn.mul swapFee).quo ((Dec.ofInt 1).sub swapFee)
      else amountSpecifiedRemaining.sub amountIn
    if feeChargeTotal.val < 0 then .error .feeChargeNegative
    else .ok feeChargeTotal

/-- Newton iteration of `approxRoot`: while the previous step moved by more
than `smallestDec` (and fuel, the remaining iteration budget `maxIters`,
lasts), refine the guess. -/
def approxRootLoop (dec : Dec) (root : Nat) : Nat → Dec → Dec → Dec
  | 0, guess, _ => guess
  | fuel + 1, guess, delta =>
    if smallestDec.val < |delta.val| then
      let prev0 := guess.powNat (root - 1)
      let prev := if prev0.val = 0 then smallestDec else prev0
      let delta2 := ((dec.quo prev).sub guess).quoTruncate (Dec.ofInt root)
      approxRootLoop dec root fuel (guess.add delta2) delta2
    else guess

/-- Root approximation by Newton's method (`approxRoot` of `math.ts`);
a negative argument recurses on its negation with the default 300 iterations. -/
def approxRoot (dec : Dec) (root maxIters : Nat) : Dec :=
  if dec.val < 0 then
    Dec.neg
      (if root = 1 ∨ (-dec.val) = 0 ∨ (⟨-dec.val⟩ : Dec) = Dec.ofInt 1 then ⟨-dec.val⟩
       else if root = 0 then Dec.ofInt 1
       else approxRootLoop ⟨-dec.val⟩ root 300 (Dec.ofInt 1) (Dec.ofInt 1))
  else
    if root = 1 ∨ dec.val = 0 ∨ dec = Dec.ofInt 1 then dec
    else if root = 0 then Dec.ofInt 1
    else approxRootLoop dec root maxIters (Dec.ofInt 1) (Dec.ofInt 1)

/-- Square-root approximation (`approxSqrt` of `math.ts`, default 300 iterations). -/
def approxSqrt (dec : Dec) : Dec := approxRoot dec 2 300

/-- Apply a signed net-liquidity delta (`addLiquidity` of `math.ts`). -/
def addLiquidity (a b : Dec) : Dec :=
  if b.val < 0 then a.sub b.abs else a.add b

/-- Tick bounds for an exponent (`computeMinMaxTicksFromExponentAtPriceOne`
of `tick.ts`): `(minTick, maxTick)`. -/
def computeMinMaxTicksFromExponentAtPriceOne (exponentAtPriceOne : Int) : Int × Int :=
  let geo := (Dec.ofInt 9).mul ((Dec.ofInt 10).pow (-exponentAtPriceOne))
  (((Dec.ofInt 18).mul geo).neg.roundInt, ((Dec.ofInt 38).mul geo).truncate)

/-- Tick index to sqrt price (`tickToSqrtPrice` of `tick.ts`): tick 0 returns
1 before any validation; then the exponent range, the tick range and the
resulting price range are validated; the price accumulates in `BigDec` and
the square root is taken by Newton's method. -/
def tickToSqrtPrice (tickIndex exponentAtPriceOne : Int) : Except CLError Dec :=
  if tickIndex = 0 then .ok (Dec.ofInt 1)
  else if exponentAtPriceOneMax < exponentAtPriceOne ∨ exponentAtPriceOne < exponentAtPriceOneMin then
    .error .exponentOutOfRange
  else
    let geoTicks := (Dec.ofInt 9).mul (getTenExponentN (-exponentAtPriceOne))
    let mm := computeMinMaxTicksFromExponentAtPriceOne exponentAtPriceOne
    if tickIndex < mm.1 ∨ mm.2 < tickIndex then .error .tickOutOfRange
    else
      let geometricExponentDelta := ((Dec.ofInt tickIndex).quoTruncate (Dec.ofInt geoTicks.truncate)).truncate
      let exponentAtCurTick :=
        (if tickIndex < 0 then exponentAtPriceOne + geometricExponentDelta - 1
         else exponentAtPriceOne + geometricExponentDelta)
      let currentAdditiveIncrementInTicks := getTenExponentN exponentAtCurTick
      let numAdditiveTicks := tickIndex - geometricExponentDelta * geoTicks.truncate
      let price := ((BigDec.ofDec (getTenExponentN geometricExponentDelta)).add
        ((BigDec.ofDec (Dec.ofInt numAdditiveTicks)).mul
          (BigDec.ofDec currentAdditiveIncrementInTicks))).toDec
      if maxSpotPrice.val < price.val ∨ price.val < minSpotPrice.val then .error .priceOutOfRange
      else .ok (approxSqrt price)

/-- Power of ten as a `BigDec` (`powTenBigDec` of `tick.ts`). -/
def powTenBigDec (exponent : Int) : BigDec :=
  if 0 ≤ exponent then (BigDec.ofInt 10).powNat exponent.natAbs
  else (BigDec.ofInt 1).quo ((BigDec.ofInt 10).powNat exponent.natAbs)

/-- State of the geometric band walk of `calculatePriceAndTicksPassed`. -/
structure WalkState where
  currentPrice : Dec
  ticksPassed : Int
  exponentAtCurTick : Int
  currentAdditiveIncrementInTicks : BigDec
deriving DecidableEq

/-- Upward band walk of `calculatePriceAndTicksPassed` (price above one). -/
def walkUp (geoTicks price : Dec) : Nat → WalkState → WalkState
  | 0, s => s
  | fuel + 1, s =>
    if s.currentPrice.val < price.val then
      let inc := powTenBigDec s.exponentAtCurTick
      let maxP := (BigDec.ofDec geoTicks).mul inc
      walkUp geoTicks price fuel
        ⟨s.currentPrice.add maxP.toDec, s.ticksPassed + geoTicks.truncate,
          s.exponentAtCurTick + 1, inc⟩
    else s

/-- Downward band walk of `calculatePriceAndTicksPassed` (price at most one). -/
def walkDown (geoTicks price : Dec) : Nat → WalkState → WalkState
  | 0, s => s
  | fuel + 1, s =>
    if price.val < s.currentPrice.val then
      let inc := powTenBigDec s.exponentAtCurTick
      let maxP := (BigDec.ofDec geoTicks).mul inc
      walkDown geoTicks price fuel
        ⟨s.currentPrice.sub maxP.toDec, s.ticksPassed - geoTicks.truncate,
          s.exponentAtCurTick - 1, inc⟩
    else s

/-- Band walk of `tick.ts` (`calculatePriceAndTicksPassed`), with fuel for
the while loop (at most 56 bands exist, so fuel 200 at the call site is
never exhausted). -/
def calculatePriceAndTicksPassed (price : Dec) (exponentAtPriceOne : Int) (fuel : Nat) : WalkState :=
  let geoTicks := (Dec.ofInt 9).mul (getTenExponentN (-exponentAtPriceOne))
  if (Dec.ofInt 1).val < price.val then
    walkUp geoTicks price fuel ⟨Dec.ofInt 1, 0, exponentAtPriceOne, powTenBigDec exponentAtPriceOne⟩
  else
    walkDown geoTicks price fuel ⟨Dec.ofInt 1, 0, exponentAtPriceOne - 1, powTenBigDec exponentAtPriceOne⟩

/-- Price to tick index (`priceToTick` of `tick.ts`): price 1 maps to tick 0;
negative or out-of-bounds prices and out-of-range exponents throw; otherwise
the band walk locates the bracketing band and the fractional tick offset is
truncated toward zero, then the result is re-validated against the tick bounds. -/
def priceToTick (price : Dec) (exponentAtPriceOne : Int) : Except CLError Int :=
  if price = Dec.ofInt 1 then .ok 0
  else if price.val < 0 then .error .priceNegative
  else if maxSpotPrice.val < price.val ∨ price.val < minSpotPrice.val then .error .priceNotWithinBounds
  else if exponentAtPriceOneMax < exponentAtPriceOne ∨ exponentAtPriceOne < exponentAtPriceOneMin then
    .error .exponentOutOfRange
  else
    let s := calculatePriceAndTicksPassed price exponentAtPriceOne 200
    let ticksToBeFilled := (BigDec.ofDec (price.sub s.currentPrice)).quo s.currentAdditiveIncrementInTicks
    let tickIndex := s.ticksPassed + ticksToBeFilled.toDec.truncate
    let mm := computeMinMaxTicksFromExponentAtPriceOne exponentAtPriceOne
    if tickIndex < mm.1 ∨ mm.2 < tickIndex then .error .tickNotWithinBounds
    else .ok tickIndex

example : tickToSqrtPrice 305450 (-4) = .ok ⟨67416615162732695594⟩ := by decide

example : approxSqrt maxSpotPrice = ⟨10000000000000000000000000000000000000⟩ := by decide

example : tickToSqrtPrice (-1619) (-1) = .ok ⟨3162277660⟩ := by decide

example : (do
    let s ← tickToSqrtPrice 305450 (-4)
    priceToTick (s.pow 2) (-4) : Except CLError Int) = .ok 305451 := by decide

/-!
Part 3: the swap-step strategies and `calcOutGivenIn`.

The two directional strategy classes (`zero-for-one.ts`, `one-for-zero.ts`),
the `const.ts`/`errors.ts` constants and the full object-argument
`calcOutGivenIn` (the entry point exercised by the repository's reference
fixtures, taking `(tickIndex, netLiquidity)` pairs and returning
`{amountOut, finalPrice}`) are not under `src/`; only `quotes.ts` (a
positional-argument variant returning the bare output amount),
`swap-strategy.ts` (the strategy interface) and the fixtures are.  The
strategies and the full entry point are therefore modelled from the spec
(section 4.2): the per-step target clamps against the price limit in the
trade direction; the reachable sqrt price uses the reciprocal formula for
token0 input (rounding up) and the linear formula for token1 input
(rounding down); on clamping, the consumed amount is recomputed at the
clamp; the fee follows `getFeeChargePerSwapStepOutGivenIn`; a crossed
tick applies its net-liquidity delta with a direction-aware sign.  The
model reproduces all seventeen reference fixtures bit for bit.
-/

/-- Result record of one swap step (`computeSwapStepOutGivenIn`). -/
structure SwapStepResult where
  sqrtPriceNext : Dec
  amountInConsumed : Dec
  amountOutComputed : Dec
  feeChargeTotal : Dec
deriving DecidableEq

/-- Modelled from the spec: per-step target price (`getSqrtTargetPrice` of the
missing strategy classes) — the next initialized tick's sqrt price clamped
against the overall limit in the trade direction. -/
def getSqrtTargetPrice (isZeroForOne : Bool) (sqrtPriceLimit nextTickSqrtPrice : Dec) : Dec :=
  if isZeroForOne then
    if nextTickSqrtPrice.val < sqrtPriceLimit.val then sqrtPriceLimit else nextTickSqrtPrice
  else
    if sqrtPriceLimit.val < nextTickSqrtPrice.val then sqrtPriceLimit else nextTickSqrtPrice

/-- Modelled from the spec: one fixed-input swap step
(`computeSwapStepOutGivenIn` of the missing strategy classes).  Token0 input
(zero-for-one) moves price down via the reciprocal formula rounding up;
token1 input (one-for-zero) moves price up via the linear formula rounding
down; if the fee-reduced remaining input reaches the target the price clamps
there, otherwise the consumed amount is recomputed at the reached price. -/
def computeSwapStepOutGivenIn (isZeroForOne : Bool)
    (swapFee curSqrtPrice sqrtPriceTarget liquidity amountRemainingIn : Dec) :
    Except CLError SwapStepResult :=
  if isZeroForOne then
    let amountZeroIn := calcAmount0Delta liquidity sqrtPriceTarget curSqrtPrice true
    let remLessFee := amountRemainingIn.mul ((Dec.ofInt 1).sub swapFee)
    let sqrtPriceNext :=
      if amountZeroIn.val ≤ remLessFee.val then sqrtPriceTarget
      else getNextSqrtPriceFromAmount0InRoundingUp curSqrtPrice liquidity remLessFee
    let hasReachedTarget := sqrtPriceTarget = sqrtPriceNext
    let amountIn :=
      if hasReachedTarget then amountZeroIn
      else calcAmount0Delta liquidity sqrtPriceNext curSqrtPrice true
    let amountOut := calcAmount1Delta liquidity sqrtPriceNext curSqrtPrice false
    (getFeeChargePerSwapStepOutGivenIn (decide hasReachedTarget) amountIn amountRemainingIn swapFee).map
      (fun fee => ⟨sqrtPriceNext, amountIn, amountOut, fee⟩)
  else
    let amountOneIn := calcAmount1Delta liquidity sqrtPriceTarget curSqrtPrice true
    let remLessFee := amountRemainingIn.mul ((Dec.ofInt 1).sub swapFee)
    let sqrtPriceNext :=
      if amountOneIn.val ≤ remLessFee.val then sqrtPriceTarget
      else getNextSqrtPriceFromAmount1InRoundingDown curSqrtPrice liquidity remLessFee
    let hasReachedTarget := sqrtPriceTarget = sqrtPriceNext
    let amountIn :=
      if hasReachedTarget then amountOneIn
      else calcAmount1Delta liquidity sqrtPriceNext curSqrtPrice true
    let amountOut := calcAmount0Delta liquidity sqrtPriceNext curSqrtPrice false
    (getFeeChargePerSwapStepOutGivenIn (decide hasReachedTarget) amountIn amountRemainingIn swapFee).map
      (fun fee => ⟨sqrtPriceNext, amountIn, amountOut, fee⟩)

/-- Modelled from the spec: sign applied to a crossed tick's net-liquidity
delta (`setLiquidityDeltaSign`) — negated when price moves down. -/
def setLiquidityDeltaSign (isZeroForOne : Bool) (liquidityDelta : Dec) : Dec :=
  if isZeroForOne then liquidityDelta.neg else liquidityDelta

/-- Modelled from the spec: `sqrtPriceToTick` (imported by `quotes.ts` but
absent from `tick.ts`) — the logical tick of a sqrt price, via `priceToTick`
of its square. -/
def sqrtPriceToTick (sqrtPrice : Dec) (exponentAtPriceOne : Int) : Except CLError Int :=
  priceToTick (sqrtPrice.pow 2) exponentAtPriceOne

/-- Swap-loop state of `calcOutGivenIn` (`SwapState` of `quotes.ts`). -/
structure SwapState where
  amountRemaining : Dec
  amountCalculated : Dec
  sqrtPrice : Dec
  tick : Int
  liquidity : Dec
  feeGrowthGlobal : Dec
deriving DecidableEq

/-- The swap loop of `calcOutGivenIn` (`quotes.ts`), over initialized ticks
given as `(tickIndex, netLiquidity)` pairs consumed sequentially from index
`i`.  The loop runs while the remaining input exceeds `smallestDec` and the
sqrt price differs from the limit; an exhausted tick list throws
`tickOverflow`.  The `src/` variant's plain tick-index list is recovered by
pairing each tick with `Dec.ofInt` of itself (it passes `new Dec(nextTick)`
as the liquidity delta). -/
def swapLoop (isZeroForOne : Bool) (swapFee sqrtPriceLimit : Dec)
    (tickDepths : List (Int × Dec)) (precisionFactorAtPriceOne : Int) :
    Nat → SwapState → Nat → Except CLError SwapState
  | 0, s, _ =>
    if smallestDec.val < s.amountRemaining.val ∧ s.sqrtPrice ≠ sqrtPriceLimit then
      .error .outOfFuel
    else .ok s
  | fuel + 1, s, i =>
    if smallestDec.val < s.amountRemaining.val ∧ s.sqrtPrice ≠ sqrtPriceLimit then
        match tickDepths.get? i with
        | none => .error .tickOverflow
        | some nextTick => do
          let sqrtPriceStart := s.sqrtPrice
          let nextTickSqrtPrice ← tickToSqrtPrice nextTick.1 precisionFactorAtPriceOne
          let sqrtPriceTarget := getSqrtTargetPrice isZeroForOne sqrtPriceLimit nextTickSqrtPrice
          let step ← computeSwapStepOutGivenIn isZeroForOne swapFee s.sqrtPrice sqrtPriceTarget
            s.liquidity s.amountRemaining
          let s1 : SwapState :=
            { s with sqrtPrice := step.sqrtPriceNext,
                     amountRemaining := s.amountRemaining.sub
                       (step.amountInConsumed.add step.feeChargeTotal),
                     amountCalculated := s.amountCalculated.add step.amountOutComputed }
          let s2 ←
            if nextTickSqrtPrice = step.sqrtPriceNext then
              let liquidityNet := setLiquidityDeltaSign isZeroForOne nextTick.2
              pure { s1 with liquidity := addLiquidity s1.liquidity liquidityNet }
            else if sqrtPriceStart ≠ step.sqrtPriceNext then do
              let t ← sqrtPriceToTick step.sqrtPriceNext precisionFactorAtPriceOne
              pure { s1 with tick := t }
            else
              pure s1
          swapLoop isZeroForOne swapFee sqrtPriceLimit tickDepths precisionFactorAtPriceOne fuel s2 (i + 1)
    else .ok s

/-- The `src/` `calcOutGivenIn` (`quotes.ts` lines 24-113): positional
arguments, tick depths as plain tick indices consumed from `curTickIndex`,
each crossed tick's `new Dec(nextTick)` used as the liquidity delta; returns
the truncated output amount.  `priceLimit` defaults to zero at call sites,
which selects the global bound for the trade direction. -/
def calcOutGivenIn (tokenInDenom : String) (tokenInAmount : Int) (tokenDenom0 : String)
    (poolLiquidity : Dec) (tickDepths : List Int) (curTickIndex : Nat) (curTick : Int)
    (curSqrtPrice : Dec) (precisionFactorAtPriceOne : Int) (swapFee priceLimit : Dec)
    (fuel : Nat) : Except CLError Int :=
  let tokenInAmountSpecified := Dec.ofInt tokenInAmount
  let isZeroForOne := tokenInDenom == tokenDenom0
  let priceLimit1 :=
    if isZeroForOne && priceLimit == Dec.ofInt 0 then minSpotPrice
    else if !isZeroForOne && priceLimit == Dec.ofInt 0 then maxSpotPrice
    else priceLimit
  let sqrtPriceLimit := approxSqrt priceLimit1
  let swapState : SwapState :=
    ⟨tokenInAmountSpecified, Dec.ofInt 0, curSqrtPrice, curTick, poolLiquidity, Dec.ofInt 0⟩
  (swapLoop isZeroForOne swapFee sqrtPriceLimit (tickDepths.map fun t => (t, Dec.ofInt t))
      precisionFactorAtPriceOne fuel swapState curTickIndex).map
    (fun finalState => finalState.amountCalculated.truncate)

/-- Modelled from the spec: the full `calcOutGivenIn` exercised by the
reference fixtures — object argument with `(tickIndex, netLiquidity)`
initialized ticks consumed from index 0, returning the truncated output
amount together with the final sqrt price. -/
def calcOutGivenInFull (tokenInDenom : String) (tokenInAmount : Int) (tokenDenom0 : String)
    (poolLiquidity : Dec) (inittedTicks : List (Int × Dec)) (curSqrtPrice : Dec)
    (precisionFactorAtPriceOne : Int) (swapFee : Dec) (fuel : Nat) :
    Except CLError (Int × Dec) :=
  let tokenInAmountSpecified := Dec.ofInt tokenInAmount
  let isZeroForOne := tokenInDenom == tokenDenom0
  let priceLimit := if isZeroForOne then minSpotPrice else maxSpotPrice
  let sqrtPriceLimit := approxSqrt priceLimit
  let swapState : SwapState :=
    ⟨tokenInAmountSpecified, Dec.ofInt 0, curSqrtPrice, 0, poolLiquidity, Dec.ofInt 0⟩
  (swapLoop isZeroForOne swapFee sqrtPriceLimit inittedTicks
      precisionFactorAtPriceOne fuel swapState 0).map
    (fun finalState => (finalState.amountCalculated.truncate, finalState.sqrtPrice))

/-- The single-position initialized tick list of the reference fixture. -/
def fixtureTicks : List (Int × Dec) :=
  [(305450, ⟨1517882343751510418088349649⟩), (0, ⟨0⟩), (315000, ⟨-1517882343751510418088349649⟩)]

/-- Pool liquidity of the reference fixture. -/
def fixtureLiquidity : Dec := ⟨1517882343751510418088349649⟩

/-- Current sqrt price of the reference fixture. -/
def fixtureSqrtPrice : Dec := ⟨70710678118654752440⟩

example :
    calcOutGivenInFull "usdc" 42000000 "eth" fixtureLiquidity fixtureTicks
      fixtureSqrtPrice (-4) (Dec.ofInt 0) 40 = .ok (8396, ⟨70738348247484497717⟩) := by decide

example :
    calcOutGivenInFull "usdc" 5300000000 "eth" fixtureLiquidity
      [(315000, ⟨-1517882343751510418088349649⟩)] fixtureSqrtPrice (-4) (Dec.ofInt 0) 40 =
      .error .tickOverflow := by decide

/-!
Part 4: route discovery and the optimal-split router (`OptimizedRoutes` of
the two router versions in the sources).  Pools are abstracted to their id
and asset-denomination list, which is all `getCandidateRoutes` consults;
the per-route quote (`calculateTokenOutByTokenIn` on one route) and the
per-route weight (`calculateWeightForRoute`, whose definition is an external
collaborator per the spec) are injected as oracle functions.
-/

/-- Errors of the router (`NotEnoughLiquidityError`, `NoRouteError`, and the
plain `Error` thrown for a non-positive `maxIterations`). -/
inductive RouterError where
  | notEnoughLiquidity
  | noRoute
  | maxIterationsNotPositive
deriving DecidableEq

/-- A routable pool as consumed by route discovery: its id and asset denoms. -/
structure RPool where
  id : Nat
  poolAssetDenoms : List String
deriving DecidableEq

/-- A discovered route (`Route` of `route.ts`): the pool sequence, the token
produced at each hop, and the originating token-in denom. -/
structure Route where
  pools : List RPool
  tokenOutDenoms : List String
  tokenInDenom : String
deriving DecidableEq

/-- The last denom of the candidate pool that occurs among the previous hop's
token outs: the nested `forEach` of `getCandidateRoutes` keeps overwriting
`prevPoolCurPoolTokenMatch`, so the last match in pool-denom order wins. -/
def lastMatchDenom (poolDenoms prevTokenOuts : List String) : Option String :=
  (poolDenoms.filter (fun d => prevTokenOuts.contains d)).getLast?

/-- Continuation of the `findRoutes` loop body once the candidate pool is
known: skip it when it shares no denom with the previous hop's outs;
otherwise append it, record the matched denom as an intermediate hop when
the route has more than one pool and the denom differs from both endpoints,
and continue the search (`next` is the recursive entry at the remaining
fuel). -/
def findRoutesMatched (tokenInDenom tokenOutDenom : String)
    (currentRoute : List RPool) (currentTokenOuts : List String) (poolsUsed : List Bool)
    (prevTokenOuts : Option (List String))
    (next : List RPool → List String → List Bool → Option (List String) →
      List Route → List Route)
    (routes : List Route) (i : Nat) (curPool : RPool) : List Route :=
  let prevOuts := prevTokenOuts.getD [tokenInDenom]
  match lastMatchDenom curPool.poolAssetDenoms prevOuts with
  | none => routes
  | some m =>
    let currentRoute1 := currentRoute ++ [curPool]
    let currentTokenOuts1 :=
      if 1 < currentRoute1.length ∧ m ≠ tokenInDenom ∧ m ≠ tokenOutDenom then
        currentTokenOuts ++ [m]
      else currentTokenOuts
    next currentRoute1 currentTokenOuts1 (poolsUsed.set i true)
      (some (curPool.poolAssetDenoms.filter (fun d => d ≠ m))) routes

/-- Loop body of the `findRoutes` search, dispatching on the pool at index
`i`: used and out-of-range pools are skipped, the rest continue in
`findRoutesMatched`. -/
def findRoutesStep (pools : List RPool) (tokenInDenom tokenOutDenom : String)
    (currentRoute : List RPool) (currentTokenOuts : List String) (poolsUsed : List Bool)
    (prevTokenOuts : Option (List String))
    (next : List RPool → List String → List Bool → Option (List String) →
      List Route → List Route)
    (routes : List Route) (i : Nat) : List Route :=
  if poolsUsed.getD i false then routes
  else
    match pools.get? i with
    | none => routes
    | some curPool =>
      findRoutesMatched tokenInDenom tokenOutDenom currentRoute currentTokenOuts
        poolsUsed prevTokenOuts next routes i curPool

/-- The recursive `findRoutes` closure of `getCandidateRoutes` (identical in
both router versions).  Entry order as in the source: depth guard, found
check, route-count guard, then the loop over all pools (unused ones whose
denoms meet the previous hop's outs), recursing with the pool appended and
the intermediate denom recorded when it differs from both endpoints.  Fuel
decreases per recursive entry; the depth guard caps recursion depth at
`maxHops + 2`, so fuel `maxHops + 2` is never exhausted. -/
def findRoutesGo (pools : List RPool) (maxHops maxRoutes : Nat) (tokenInDenom tokenOutDenom : String) :
    Nat → List RPool → List String → List Bool → Option (List String) → List Route → List Route
  | 0, _, _, _, _, routes => routes
  | fuel + 1, currentRoute, currentTokenOuts, poolsUsed, prevTokenOuts, routes =>
    if maxHops < currentRoute.length then routes
    else if (currentRoute.getLast?.map (fun p => p.poolAssetDenoms.contains tokenOutDenom)).getD false then
      routes ++ [⟨currentRoute, currentTokenOuts ++ [tokenOutDenom], tokenInDenom⟩]
    else if maxRoutes < routes.length then routes
    else
      (List.range pools.length).foldl
        (findRoutesStep pools tokenInDenom tokenOutDenom currentRoute currentTokenOuts
          poolsUsed prevTokenOuts
          (findRoutesGo pools maxHops maxRoutes tokenInDenom tokenOutDenom fuel)) routes

/-- Greedy candidate-route discovery (`getCandidateRoutes` of both router
versions): empty pool set yields no routes; otherwise the depth-first search
runs from the token-in denom and the results are filtered to `maxHops`
(the per-instance route cache is semantically transparent for a fixed pool
set and is not modelled). -/
def getCandidateRoutes (pools : List RPool) (maxHops maxRoutes : Nat)
    (tokenInDenom tokenOutDenom : String) : List Route :=
  if pools = [] then []
  else
    (findRoutesGo pools maxHops maxRoutes tokenInDenom tokenOutDenom (maxHops + 2)
        [] [] (List.replicate pools.length false) none []).filter
      (fun r => r.pools.length ≤ maxHops)

example :
    getCandidateRoutes [⟨0, ["A", "B"]⟩, ⟨1, ["B", "A"]⟩, ⟨2, ["A", "C"]⟩] 4 4 "A" "C" =
      [⟨[⟨0, ["A", "B"]⟩, ⟨1, ["B", "A"]⟩, ⟨2, ["A", "C"]⟩], ["B", "C"], "A"⟩,
       ⟨[⟨1, ["B", "A"]⟩, ⟨0, ["A", "B"]⟩, ⟨2, ["A", "C"]⟩], ["B", "C"], "A"⟩,
       ⟨[⟨2, ["A", "C"]⟩], ["C"], "A"⟩] := by decide

/-!
The weight-based route sort of `getOptimizedRoutesByTokenIn`.  The source
computes `routeWeights` aligned with the pre-sort order, then calls
`routes.sort((path1, path2) => weights[routes.indexOf(path1)] >=
weights[routes.indexOf(path2)] ? -1 : 1)` — the comparator looks routes up
by their CURRENT position in the array being sorted (the `routes` binding
aliases the mutating array) and never returns 0.  Routes are modelled by
their discovery index and their injected weights by a `Dec` list.
Modelled from the spec: the engine's `Array.prototype.sort` — whose exact
algorithm ECMA-262 leaves implementation-defined for an inconsistent
comparator — is modelled as the standard stable in-place insertion sort
(adjacent swaps), with the comparator consulted live on the mutating list.
-/

/-- First position of an element in a list (JS `indexOf`); when the element
is absent (which never happens in the sort: the comparator only receives
members) the result is the length. -/
def jsIndexOf : List Nat → Nat → Nat
  | [], _ => 0
  | a :: l, x => if a = x then 0 else jsIndexOf l x + 1

/-- The route-sort comparator: weight of each argument fetched at the index
the route currently occupies in the list being sorted; `-1` when the first
weight is at least the second (so equal weights also compare `-1`). -/
def routeSortCmp (routeWeights : List Dec) (arr : List Nat) (p1 p2 : Nat) : Int :=
  let w1 := (routeWeights.getD (jsIndexOf arr p1) ⟨0⟩)
  let w2 := (routeWeights.getD (jsIndexOf arr p2) ⟨0⟩)
  if w2.val ≤ w1.val then -1 else 1

/-- Swap the elements at positions `j - 1` and `j`. -/
def listSwap (l : List Nat) (j : Nat) : List Nat :=
  match l.get? (j - 1), l.get? j with
  | some a, some b => (l.set (j - 1) b).set j a
  | _, _ => l

/-- One insertion pass: compare positions `j - 1` and `j`, swapping downward
while the comparator orders them the other way. -/
def bubbleDown (routeWeights : List Dec) : List Nat → Nat → List Nat
  | arr, 0 => arr
  | arr, j + 1 =>
    match arr.get? j, arr.get? (j + 1) with
    | some a, some b =>
      if routeSortCmp routeWeights arr a b = 1 then
        bubbleDown routeWeights (listSwap arr (j + 1)) j
      else arr
    | _, _ => arr

/-- Modelled from the spec: the engine sort as stable in-place insertion sort,
with the source's live-index comparator. -/
def sortRoutesByWeight (routeWeights : List Dec) (arr : List Nat) : List Nat :=
  (List.range arr.length).foldl (fun a k => bubbleDown routeWeights a k) arr

/-- The post-sort candidate list of `getOptimizedRoutesByTokenIn` (routes
named by discovery index) and the top-2 restriction passed to the split
search (`routes.slice(0, 2)`). -/
def rankedRouteIndexes (routeWeights : List Dec) : List Nat :=
  sortRoutesByWeight routeWeights (List.range routeWeights.length)

/-- Top two ranked routes, taken from the front of the sorted list. -/
def topTwoRouteIndexes (routeWeights : List Dec) : List Nat :=
  (rankedRouteIndexes routeWeights).take 2

example : rankedRouteIndexes [Dec.ofInt 1, Dec.ofInt 3, Dec.ofInt 2] = [1, 0, 2] := by decide

/-!
The split search (`findBestSplitTokenIn`).  The route's quote for a given
input amount (`calculateTokenOutByTokenIn` on the single route, memoized in
the `part_007` version) is injected as a deterministic oracle
`o : route-index → in-amount → out-amount`.
-/

/-- Input fraction allocated at loop step `i` of the split search:
`new Dec(remaining).mul(new Dec(i).quo(new Dec(maxIterations))).truncate()`. -/
def splitFraction (maxIterations i : Nat) (remaining : Int) : Int :=
  ((Dec.ofInt remaining).mul ((Dec.ofInt i).quo (Dec.ofInt maxIterations))).truncate

/-- Sum of the allocated input amounts of a split. -/
def sumSplitIn (l : List (Nat × Int)) : Int := (l.map Prod.snd).sum

/-- Sum of the allocated input amounts of in-flight search entries
`(route, inAmount, outAmount)`. -/
def sumEntriesIn (l : List (Nat × Int × Int)) : Int := (l.map (fun e => e.2.1)).sum

/-- Sum of the out amounts of in-flight search entries. -/
def sumEntriesOut (l : List (Nat × Int × Int)) : Int := (l.map (fun e => e.2.2)).sum

/-- One allocation attempt of the `part_007` split search: try fraction
`i / maxIterations` of the remaining input on route `r`, skipping zero
allocations and zero-output allocations, otherwise recursing (`next`) on the
remaining routes with the entry appended to the current split. -/
def splitStep7 (o : Nat → Int → Int) (maxIterations : Nat)
    (next : Int → List (Nat × Int × Int) → List (Nat × Int) × Int → List (Nat × Int) × Int)
    (r : Nat) (remainingIn : Int) (cur : List (Nat × Int × Int))
    (best : List (Nat × Int) × Int) (i : Nat) : List (Nat × Int) × Int :=
  let inAmt := splitFraction maxIterations i remainingIn
  if inAmt = 0 then best
  else
    let outA := o r inAmt
    if outA = 0 then best
    else next (remainingIn - inAmt) (cur ++ [(r, inAmt, outA)]) best

/-- The `splitRecursive` closure of the `part_007` `findBestSplitTokenIn`:
at a full leaf the current split replaces the best one when its total output
is strictly larger (the amounts are deep-copied at record time); otherwise
the next route tries each allocation via `splitStep7`.  Fuel decreases per
route taken, so `routes.length + 1` is never exhausted. -/
def splitRecursive7 (o : Nat → Int → Int) (maxIterations : Nat) :
    Nat → List Nat → Int → List (Nat × Int × Int) → List (Nat × Int) × Int →
    List (Nat × Int) × Int
  | 0, _, _, _, best => best
  | _ + 1, [], _, cur, best =>
    let totalOut := sumEntriesOut cur
    if best.2 < totalOut then (cur.map (fun e => (e.1, e.2.1)), totalOut) else best
  | fuel + 1, r :: rest, remainingIn, cur, best =>
    (List.range (maxIterations + 1)).foldl
      (splitStep7 o maxIterations (splitRecursive7 o maxIterations fuel rest)
        r remainingIn cur) best

/-- The `part_007` `findBestSplitTokenIn`: guard on `maxIterations`, trivial
zero- and one-route cases, the recursive search, then the final check that
the winning split allocates at least the requested amount, else
`NotEnoughLiquidityError`. -/
def findBestSplitTokenIn7 (o : Nat → Int → Int) (routes : List Nat)
    (tokenInAmount : Int) (maxIterations : Nat) :
    Except RouterError (List (Nat × Int)) :=
  if maxIterations = 0 then .error .maxIterationsNotPositive
  else
    match routes with
    | [] => .ok []
    | [r] => .ok [(r, tokenInAmount)]
    | _ =>
      let best := splitRecursive7 o maxIterations (routes.length + 1) routes tokenInAmount [] ([], 0)
      if sumSplitIn best.1 < tokenInAmount then .error .notEnoughLiquidity
      else .ok best.1

/-- Mutable per-route-object state of the `part_008` search: each route slot
holds its current `initialAmount` and `outAmount` (the route objects are
shared by reference between the search and the recorded best split). -/
structure Split8State where
  slots : List (Int × Int)
  bestSplit : List Nat
  bestOut : Int

/-- Current `initialAmount` of a route slot. -/
def slotIn (st : Split8State) (r : Nat) : Int := (st.slots.getD r (0, 0)).1

/-- Current `outAmount` of a route slot. -/
def slotOut (st : Split8State) (r : Nat) : Int := (st.slots.getD r (0, 0)).2

/-- Overwrite a route slot's `initialAmount` (the source's
`route.initialAmount = inAmount`, executed before the zero-output check, so
it persists even for skipped allocations). -/
def setSlotIn (st : Split8State) (r : Nat) (v : Int) : Split8State :=
  { st with slots := st.slots.set r (v, (st.slots.getD r (0, 0)).2) }

/-- Overwrite a route slot's `outAmount`. -/
def setSlotOut (st : Split8State) (r : Nat) (v : Int) : Split8State :=
  { st with slots := st.slots.set r ((st.slots.getD r (0, 0)).1, v) }

/-- The `splitRecursive` closure of the `part_008` `findBestSplitTokenIn`:
identical search shape, but the best split is recorded as a shallow copy
(`currentSplit.slice()`) of route references whose amounts keep being
mutated by the rest of the search. -/
def splitRecursive8 (o : Nat → Int → Int) (maxIterations : Nat) :
    Nat → List Nat → Int → List Nat → Split8State → Split8State
  | 0, _, _, _, st => st
  | _ + 1, [], _, cur, st =>
    let totalOut := (cur.map (slotOut st)).sum
    if st.bestOut < totalOut then { st with bestSplit := cur, bestOut := totalOut } else st
  | fuel + 1, r :: rest, remainingIn, cur, st =>
    (List.range (maxIterations + 1)).foldl (fun st i =>
      let inAmt := splitFraction maxIterations i remainingIn
      if inAmt = 0 then st
      else
        let st1 := setSlotIn st r inAmt
        let outA := o r inAmt
        if outA = 0 then st1
        else
          let st2 := setSlotOut st1 r outA
          splitRecursive8 o maxIterations fuel rest (remainingIn - inAmt) (cur ++ [r]) st2) st

/-- The `part_008` `findBestSplitTokenIn`: same guards and trivial cases,
but no final allocation check — the recorded best split is returned with
whatever amounts its route objects hold after the whole search. -/
def findBestSplitTokenIn8 (o : Nat → Int → Int) (routeCount : Nat)
    (tokenInAmount : Int) (maxIterations : Nat) :
    Except RouterError (List (Nat × Int)) :=
  if maxIterations = 0 then .error .maxIterationsNotPositive
  else
    match List.range routeCount with
    | [] => .ok []
    | [r] => .ok [(r, tokenInAmount)]
    | routes =>
      let st := splitRecursive8 o maxIterations (routes.length + 1) routes tokenInAmount []
        ⟨List.replicate routeCount (0, 0), [], 0⟩
      .ok (st.bestSplit.map (fun r => (r, slotIn st r)))

/-- The oracle of the `part_008` counterexample: route 0 yields output only
on an allocation of 5, route 1 only on an allocation of 2. -/
def cexOracle (r : Nat) (a : Int) : Int :=
  if (r = 0 ∧ a = 5) ∨ (r = 1 ∧ a = 2) then 1 else 0

example :
    findBestSplitTokenIn8 cexOracle 2 10 10 = .ok [(0, 10), (1, 5)] := by decide

example :
    findBestSplitTokenIn7 cexOracle [0, 1] 10 10 = .error .notEnoughLiquidity := by decide

/-!
Part 5: the claims.
-/

/-- Round trip of the spec's testable property: tick to sqrt price, squared
(by the library's `pow`), back through `priceToTick`. -/
def tickRoundTrip (t e : Int) : Except CLError Int := do
  let s ← tickToSqrtPrice t e
  priceToTick (s.pow 2) e

/-- Strict comparison of the sqrt prices of two ticks (false unless both
conversions succeed). -/
def tickSqrtLtb (t1 t2 e : Int) : Bool :=
  match tickToSqrtPrice t1 e, tickToSqrtPrice t2 e with
  | .ok a, .ok b => decide (a.val < b.val)
  | _, _ => false

/-- C1: for the swap simulator's `calcOutGivenIn` with token-in `42000000`
of the quote asset (token1), pool liquidity `1517882343.751510418088349649`,
current sqrt price `70.710678118654752440`, precision factor `-4`, the
single-position initialized tick list of the reference fixture and zero
swap fee, the output amount is exactly `8396` and the final sqrt price is
exactly `70.738348247484497717`; the `src/` positional variant agrees on
the output amount. -/
theorem calcOutGivenIn_single_position_fixture :
    calcOutGivenInFull "usdc" 42000000 "eth" fixtureLiquidity fixtureTicks
      fixtureSqrtPrice (-4) (Dec.ofInt 0) 40 = .ok (8396, ⟨70738348247484497717⟩) ∧
    calcOutGivenIn "usdc" 42000000 "eth" fixtureLiquidity [305450, 0, 315000] 0 0
      fixtureSqrtPrice (-4) (Dec.ofInt 0) (Dec.ofInt 0) 40 = .ok 8396 := by
  constructor
  · decide
  · decide

/-- C2: whenever the swap loop's termination condition still holds (input
above `smallestDec` remains and the price limit is not reached) but the
initialized-tick sequence is exhausted, the loop throws `TickOverflowError`
(for any fuel left); in particular, on the single-initialized-tick fixture
pool with input `5300000000` of the quote asset and zero fee,
`calcOutGivenIn` throws `TickOverflowError`. -/
theorem calcOutGivenIn_exhausted_ticks_throw :
    (∀ (isZeroForOne : Bool) (swapFee sqrtPriceLimit : Dec) (tickDepths : List (Int × Dec))
        (precisionFactorAtPriceOne : Int) (fuel : Nat) (s : SwapState) (i : Nat),
        smallestDec.val < s.amountRemaining.val → s.sqrtPrice ≠ sqrtPriceLimit →
        tickDepths.length ≤ i →
        swapLoop isZeroForOne swapFee sqrtPriceLimit tickDepths precisionFactorAtPriceOne
          (fuel + 1) s i = .error .tickOverflow) ∧
    calcOutGivenInFull "usdc" 5300000000 "eth" fixtureLiquidity
      [(315000, ⟨-1517882343751510418088349649⟩)] fixtureSqrtPrice (-4) (Dec.ofInt 0) 40 =
      .error .tickOverflow := by
  constructor
  · intro isZeroForOne swapFee sqrtPriceLimit tickDepths precisionFactorAtPriceOne fuel s i h1 h2 h3
    have hnone : tickDepths.get? i = none := List.get?_eq_none.mpr h3
    simp only [swapLoop, hnone, if_pos (And.intro h1 h2)]
  · decide

/-- Witness for C2: a concrete exhausted state (positive remaining input,
price away from the limit, empty tick list) throws `TickOverflowError`. -/
theorem calcOutGivenIn_exhausted_ticks_throw_witness :
    smallestDec.val < (Dec.ofInt 5).val ∧ (⟨2⟩ : Dec) ≠ (⟨3⟩ : Dec) ∧
    ([] : List (Int × Dec)).length ≤ 0 ∧
    swapLoop false (Dec.ofInt 0) ⟨3⟩ [] (-4) 1 ⟨Dec.ofInt 5, Dec.ofInt 0, ⟨2⟩, 0, ⟨0⟩, ⟨0⟩⟩ 0 =
      .error .tickOverflow :=
  ⟨by decide, by decide, by decide,
    calcOutGivenIn_exhausted_ticks_throw.1 false (Dec.ofInt 0) ⟨3⟩ [] (-4) 0
      ⟨Dec.ofInt 5, Dec.ofInt 0, ⟨2⟩, 0, ⟨0⟩, ⟨0⟩⟩ 0 (by decide) (by decide) (by decide)⟩

/-- C5 counterexample: the round trip fails at the fixture's own tick.  Tick
`305450` (exponent `-4`, mid-band, well inside the valid range) maps through
`tickToSqrtPrice`, squaring and `priceToTick` to `305451`, not `305450`:
Newton's square root overshoots the exact band price slightly, and the
truncation toward zero of the negative fractional tick offset rounds the
tick up by one. -/
theorem tickRoundTrip_off_by_one_counterexample :
    tickRoundTrip 305450 (-4) = .ok 305451 ∧
    (computeMinMaxTicksFromExponentAtPriceOne (-4)).1 ≤ 305450 ∧
    (305450 : Int) ≤ (computeMinMaxTicksFromExponentAtPriceOne (-4)).2 := by
  refine ⟨by decide, by decide, by decide⟩

/-- C5 amended: the round trip `priceToTick (tickToSqrtPrice t e ^ 2) e` is
not always `t`: on the verified sample it returns exactly `t` at tick 0 and
at the band-boundary and extreme ticks shown, returns `t + 1` at mid-band
ticks where the square-root approximation squared exceeds the exact band
price (`305450` at `-4`, `100` at `-1`), and deviates arbitrarily where the
band's additive increment underflows the decimal precision (`-1619` at `-1`
maps to `-1530`). -/
theorem tickRoundTrip_samples :
    tickRoundTrip 0 (-4) = .ok 0 ∧
    tickRoundTrip 1 (-4) = .ok 1 ∧
    tickRoundTrip (-1) (-4) = .ok (-1) ∧
    tickRoundTrip 315000 (-4) = .ok 315000 ∧
    tickRoundTrip 3420000 (-4) = .ok 3420000 ∧
    tickRoundTrip (-1620000) (-4) = .ok (-1620000) ∧
    tickRoundTrip (-100) (-1) = .ok (-100) ∧
    tickRoundTrip 2 (-12) = .ok 2 ∧
    tickRoundTrip (-2) (-12) = .ok (-2) ∧
    tickRoundTrip 305450 (-4) = .ok 305451 ∧
    tickRoundTrip 100 (-1) = .ok 101 ∧
    tickRoundTrip (-1619) (-1) = .ok (-1530) := by
  refine ⟨by decide, by decide, by decide, by decide, by decide, by decide,
    by decide, by decide, by decide, by decide, by decide, by decide⟩

/-- C6 counterexample: `tickToSqrtPrice` is not strictly increasing in the
tick index.  At exponent `-1`, the valid adjacent ticks `-1619 < -1618`
produce the same sqrt price: their band's additive increment `10^-19`
underflows the 18-decimal representation to zero, so every tick of the band
collapses to the band's base price.  The failure is not specific to one
exponent: at the fixture exponent `-4` the valid adjacent ticks
`-1619999 < -1619998` (just above `minTick = -1620000`) likewise collapse,
their bottom-band increment `10^-22` underflowing as well. -/
theorem tickToSqrtPrice_plateau_counterexample :
    tickToSqrtPrice (-1619) (-1) = tickToSqrtPrice (-1618) (-1) ∧
    tickToSqrtPrice (-1619) (-1) = .ok ⟨3162277660⟩ ∧
    ((-1619 : Int) < -1618) ∧
    (computeMinMaxTicksFromExponentAtPriceOne (-1)).1 ≤ -1619 ∧
    ((-1618 : Int) ≤ (computeMinMaxTicksFromExponentAtPriceOne (-1)).2) ∧
    tickToSqrtPrice (-1619999) (-4) = tickToSqrtPrice (-1619998) (-4) ∧
    ((-1619999 : Int) < -1619998) ∧
    (computeMinMaxTicksFromExponentAtPriceOne (-4)).1 ≤ -1619999 ∧
    ((-1619998 : Int) ≤ (computeMinMaxTicksFromExponentAtPriceOne (-4)).2) := by
  refine ⟨by decide, by decide, by decide, by decide, by decide, by decide, by decide,
    by decide, by decide⟩

/-- C6 amended: strict monotonicity fails on plateaus where a band's
additive increment underflows the 18-decimal precision, and such plateaus
occur inside the valid tick range at every exponent shown (at `-1619` for
exponent `-1` and at `-1619999` for the fixture exponent `-4`): the claim
cannot be saved by restricting to any single valid exponent.  What is
verified positively is strict increase on the sample pairs below — chains
spanning negative, zero and positive ticks up to the range extremes at
exponent `-4`, and positive ticks at `-1` — whose band increments are
representable; no monotonicity beyond these samples is asserted. -/
theorem tickToSqrtPrice_strict_mono_samples :
    tickSqrtLtb (-1620000) (-900000) (-4) = true ∧
    tickSqrtLtb (-900000) (-1) (-4) = true ∧
    tickSqrtLtb (-1) 0 (-4) = true ∧
    tickSqrtLtb 0 1 (-4) = true ∧
    tickSqrtLtb 1 305450 (-4) = true ∧
    tickSqrtLtb 305450 315000 (-4) = true ∧
    tickSqrtLtb 315000 3420000 (-4) = true ∧
    tickSqrtLtb 1 2 (-1) = true ∧
    tickSqrtLtb 2 100 (-1) = true ∧
    tickSqrtLtb 100 3420 (-1) = true := by
  refine ⟨by decide, by decide, by decide, by decide, by decide, by decide, by decide,
    by decide, by decide, by decide⟩

/-- C7 counterexample: `tickToSqrtPrice` does not validate at tick index 0.
With exponent `-13`, which lies outside the global exponent range, tick 0
returns 1 instead of throwing: the zero-tick short-circuit runs before any
validation. -/
theorem tickToSqrtPrice_zero_tick_skips_validation :
    tickToSqrtPrice 0 (-13) = .ok (Dec.ofInt 1) ∧ (-13 : Int) < exponentAtPriceOneMin := by
  refine ⟨by decide, by decide⟩

/-- C7 amended: for every nonzero tick index, an exponent outside the fixed
global range throws the exponent range error, and for an in-range exponent a
tick index outside `[minTick, maxTick]` throws the tick range error; tick
index 0 is exempt (it returns 1 before validation, see the counterexample). -/
theorem tickToSqrtPrice_range_errors :
    ∀ (tickIndex exponentAtPriceOne : Int), tickIndex ≠ 0 →
      ((exponentAtPriceOneMax < exponentAtPriceOne ∨ exponentAtPriceOne < exponentAtPriceOneMin) →
        tickToSqrtPrice tickIndex exponentAtPriceOne = .error .exponentOutOfRange) ∧
      (exponentAtPriceOneMin ≤ exponentAtPriceOne → exponentAtPriceOne ≤ exponentAtPriceOneMax →
        (tickIndex < (computeMinMaxTicksFromExponentAtPriceOne exponentAtPriceOne).1 ∨
          (computeMinMaxTicksFromExponentAtPriceOne exponentAtPriceOne).2 < tickIndex) →
        tickToSqrtPrice tickIndex exponentAtPriceOne = .error .tickOutOfRange) := by
  intro tickIndex exponentAtPriceOne ht
  constructor
  · intro he
    simp only [tickToSqrtPrice]
    rw [if_neg ht, if_pos he]
  · intro hmin hmax htick
    simp only [tickToSqrtPrice]
    rw [if_neg ht, if_neg (not_or.mpr ⟨not_lt.mpr hmax, not_lt.mpr hmin⟩), if_pos htick]

/-- Witness for C7: tick 1 with exponent 0 (above the maximum) throws the
exponent range error, and tick `3420001` (just past `maxTick`) at the
fixture exponent `-4` throws the tick range error. -/
theorem tickToSqrtPrice_range_errors_witness :
    (1 : Int) ≠ 0 ∧ tickToSqrtPrice 1 0 = .error .exponentOutOfRange ∧
    (3420001 : Int) ≠ 0 ∧ tickToSqrtPrice 3420001 (-4) = .error .tickOutOfRange :=
  ⟨by decide,
    (tickToSqrtPrice_range_errors 1 0 (by decide)).1 (by decide),
    by decide,
    (tickToSqrtPrice_range_errors 3420001 (-4) (by decide)).2 (by decide) (by decide) (by decide)⟩

/-- C4 counterexample: with a zero swap fee the function returns fee 0 even
when the target was not reached and the remaining input exceeds the consumed
amount, where the claim's formula `remaining - amountIn` gives 2, not 0: the
zero-fee short-circuit precedes the case split. -/
theorem feeCharge_zero_fee_counterexample :
    getFeeChargePerSwapStepOutGivenIn false (Dec.ofInt 3) (Dec.ofInt 5) (Dec.ofInt 0) =
      .ok (Dec.ofInt 0) ∧
    (Dec.ofInt 5).sub (Dec.ofInt 3) ≠ Dec.ofInt 0 := by
  refine ⟨by decide, by decide⟩

/-- C4 amended: for swap fees in `[0, 1)`: a zero fee always yields fee 0
(regardless of whether the target was reached); for a positive fee, if the
target was reached the fee is `amountIn * swapFee / (1 - swapFee)` and
otherwise `amountSpecifiedRemaining - amountIn`, in each case returned only
when non-negative and otherwise rejected with a thrown error; every returned
fee is non-negative. -/
theorem feeCharge_formula_and_nonnegative :
    ∀ (hasReachedTarget : Bool) (amountIn amountSpecifiedRemaining swapFee : Dec),
      0 ≤ swapFee.val → swapFee.val < P18Z →
      (swapFee.val = 0 →
        getFeeChargePerSwapStepOutGivenIn hasReachedTarget amountIn amountSpecifiedRemaining
          swapFee = .ok (Dec.ofInt 0)) ∧
      (0 < swapFee.val → hasReachedTarget = true →
        0 ≤ ((amountIn.mul swapFee).quo ((Dec.ofInt 1).sub swapFee)).val →
        getFeeChargePerSwapStepOutGivenIn hasReachedTarget amountIn amountSpecifiedRemaining
          swapFee = .ok ((amountIn.mul swapFee).quo ((Dec.ofInt 1).sub swapFee))) ∧
      (0 < swapFee.val → hasReachedTarget = false →
        0 ≤ (amountSpecifiedRemaining.sub amountIn).val →
        getFeeChargePerSwapStepOutGivenIn hasReachedTarget amountIn amountSpecifiedRemaining
          swapFee = .ok (amountSpecifiedRemaining.sub amountIn)) ∧
      (0 < swapFee.val →
        (if hasReachedTarget then (amountIn.mul swapFee).quo ((Dec.ofInt 1).sub swapFee)
          else amountSpecifiedRemaining.sub amountIn).val < 0 →
        getFeeChargePerSwapStepOutGivenIn hasReachedTarget amountIn amountSpecifiedRemaining
          swapFee = .error .feeChargeNegative) ∧
      (∀ v, getFeeChargePerSwapStepOutGivenIn hasReachedTarget amountIn amountSpecifiedRemaining
          swapFee = .ok v → 0 ≤ v.val) := by
  intro b amountIn rem fee h0 _
  have hnn : ¬ fee.val < 0 := not_lt.mpr h0
  refine ⟨?_, ?_, ?_, ?_, ?_⟩
  · intro hz
    simp [getFeeChargePerSwapStepOutGivenIn, hnn, hz, Dec.ofInt]
  · intro hp hb hok
    subst hb
    simp [getFeeChargePerSwapStepOutGivenIn, hnn, show ¬ fee.val = 0 by omega,
      not_lt.mpr hok]
  · intro hp hb hok
    subst hb
    simp [getFeeChargePerSwapStepOutGivenIn, hnn, show ¬ fee.val = 0 by omega,
      not_lt.mpr hok]
  · intro hp hneg
    simp only [getFeeChargePerSwapStepOutGivenIn]
    rw [if_neg hnn, if_neg (show ¬ fee.val = 0 by omega)]
    cases b with
    | false => simp only [Bool.false_eq_true, if_false] at hneg ⊢; rw [if_pos hneg]
    | true => simp only [if_true] at hneg ⊢; rw [if_pos hneg]
  · intro v hv
    simp only [getFeeChargePerSwapStepOutGivenIn] at hv
    split_ifs at hv
    all_goals cases hv
    all_goals first | decide | exact le_of_not_lt (by assumption)

/-- Witness for C4: the positive-fee, target-not-reached case at fee `0.5`,
consumed 2 of remaining 5, returns fee 3 (non-negative). -/
theorem feeCharge_formula_and_nonnegative_witness :
    (0 : Int) ≤ (⟨500000000000000000⟩ : Dec).val ∧ (⟨500000000000000000⟩ : Dec).val < P18Z ∧
    getFeeChargePerSwapStepOutGivenIn false (Dec.ofInt 2) (Dec.ofInt 5) ⟨500000000000000000⟩ =
      .ok ((Dec.ofInt 5).sub (Dec.ofInt 2)) :=
  ⟨by decide, by decide,
    (feeCharge_formula_and_nonnegative false (Dec.ofInt 2) (Dec.ofInt 5) ⟨500000000000000000⟩
      (by decide) (by decide)).2.2.1 (by decide) rfl (by decide)⟩

/-- C9: whenever the token-in amount, as a decimal, is at most the smallest
representable decimal threshold, `calcOutGivenIn` returns output 0 without
consulting any tick data (for every tick list, index, fuel and pool state):
the swap loop body is never entered, so no `TickOverflowError` can arise. -/
theorem calcOutGivenIn_dust_input_returns_zero :
    ∀ (tokenInDenom tokenDenom0 : String) (tokenInAmount : Int) (poolLiquidity : Dec)
      (tickDepths : List Int) (curTickIndex : Nat) (curTick : Int) (curSqrtPrice : Dec)
      (precisionFactorAtPriceOne : Int) (swapFee priceLimit : Dec) (fuel : Nat),
      (Dec.ofInt tokenInAmount).val ≤ smallestDec.val →
      calcOutGivenIn tokenInDenom tokenInAmount tokenDenom0 poolLiquidity tickDepths
        curTickIndex curTick curSqrtPrice precisionFactorAtPriceOne swapFee priceLimit fuel =
        .ok 0 := by
  intro tokenInDenom tokenDenom0 tokenInAmount poolLiquidity tickDepths curTickIndex curTick
    curSqrtPrice precisionFactorAtPriceOne swapFee priceLimit fuel h
  cases fuel with
  | zero =>
    simp only [calcOutGivenIn, swapLoop]
    rw [if_neg (fun hc => absurd hc.1 (not_lt.mpr h))]
    simp only [Except.map]
    decide
  | succ fuel =>
    simp only [calcOutGivenIn, swapLoop]
    rw [if_neg (fun hc => absurd hc.1 (not_lt.mpr h))]
    simp only [Except.map]
    decide

/-- Witness for C9: a zero-amount trade with an empty tick list returns 0. -/
theorem calcOutGivenIn_dust_input_returns_zero_witness :
    (Dec.ofInt 0).val ≤ smallestDec.val ∧
    calcOutGivenIn "usdc" 0 "eth" fixtureLiquidity [] 0 0 fixtureSqrtPrice (-4)
      (Dec.ofInt 0) (Dec.ofInt 0) 5 = .ok 0 :=
  ⟨by decide,
    calcOutGivenIn_dust_input_returns_zero "usdc" "eth" 0 fixtureLiquidity [] 0 0
      fixtureSqrtPrice (-4) (Dec.ofInt 0) (Dec.ofInt 0) 5 (by decide)⟩

/-- A fold preserves a predicate that each step preserves. -/
theorem foldl_preserve {α β : Type} (P : β → Prop) (f : β → α → β) :
    ∀ (l : List α), (∀ b a, a ∈ l → P b → P (f b a)) → ∀ b, P b → P (l.foldl f b) := by
  intro l
  induction l with
  | nil => intro _ b hb; exact hb
  | cons x xs ih =>
    intro hstep b hb
    simp only [List.foldl_cons]
    exact ih (fun b a ha hb => hstep b a (List.mem_cons_of_mem _ ha) hb) (f b x)
      (hstep b x (List.mem_cons_self x xs) hb)

/-- A fold whose every step fixes the accumulator returns it unchanged. -/
theorem foldl_fixed {α β : Type} (f : β → α → β) (b : β) :
    ∀ (l : List α), (∀ a ∈ l, f b a = b) → l.foldl f b = b := by
  intro l
  induction l with
  | nil => intro _; rfl
  | cons x xs ih =>
    intro h
    simp only [List.foldl_cons, h x (List.mem_cons_self x xs)]
    exact ih (fun a ha => h a (List.mem_cons_of_mem x ha))

/-- Position lookup on an arithmetic index list. -/
theorem jsIndexOf_range' :
    ∀ (n s j : Nat), s ≤ j → j < s + n → jsIndexOf (List.range' s n) j = j - s := by
  intro n
  induction n with
  | zero => intro s j h1 h2; omega
  | succ n ih =>
    intro s j h1 h2
    rw [List.range'_succ]
    simp only [jsIndexOf]
    by_cases hs : s = j
    · rw [if_pos hs]; omega
    · rw [if_neg hs, ih (s + 1) j (by omega) (by omega)]
      omega

/-- On `List.range n`, `jsIndexOf` of a member is itself. -/
theorem jsIndexOf_range (n j : Nat) (h : j < n) : jsIndexOf (List.range n) j = j := by
  rw [List.range_eq_range' n, jsIndexOf_range' n 0 j (Nat.zero_le j) (by omega)]
  omega

/-- When the weight list is already non-increasing, every insertion pass on
the identity order compares adjacent weights (the live index lookup returns
the original positions, since nothing has moved) and performs no swap. -/
theorem bubbleDown_range_fixed (ws : List Dec)
    (hw : ∀ j, j + 1 < ws.length → (ws.getD (j + 1) ⟨0⟩).val ≤ (ws.getD j ⟨0⟩).val) :
    ∀ k, bubbleDown ws (List.range ws.length) k = List.range ws.length := by
  intro k
  cases k with
  | zero => rfl
  | succ j =>
    by_cases hj : j + 1 < ws.length
    · have hj0 : j < ws.length := by omega
      simp only [bubbleDown, List.get?_range hj0, List.get?_range hj]
      rw [if_neg]
      simp only [routeSortCmp, jsIndexOf_range ws.length j hj0, jsIndexOf_range ws.length (j + 1) hj]
      rw [if_pos (hw j hj)]
      decide
    · by_cases hj0 : j < ws.length
      · simp only [bubbleDown, List.get?_range hj0,
          List.get?_eq_none.mpr
            (by rw [List.length_range]; omega : (List.range ws.length).length ≤ j + 1)]
      · simp only [bubbleDown,
          List.get?_eq_none.mpr (by rw [List.length_range]; omega : (List.range ws.length).length ≤ j),
          List.get?_eq_none.mpr (by rw [List.length_range]; omega : (List.range ws.length).length ≤ j + 1)]

/-- Adjacent non-increase of a weight list, as a decidable check. -/
def nonIncreasingWeights : List Dec → Bool
  | [] => true
  | [_] => true
  | a :: b :: l => decide (b.val ≤ a.val) && nonIncreasingWeights (b :: l)

/-- A non-increasing weight list is non-increasing at every adjacent index pair. -/
theorem nonIncreasingWeights_adjacent :
    ∀ (ws : List Dec), nonIncreasingWeights ws = true →
      ∀ j, j + 1 < ws.length → (ws.getD (j + 1) ⟨0⟩).val ≤ (ws.getD j ⟨0⟩).val := by
  intro ws
  induction ws with
  | nil => intro _ j hj; simp at hj
  | cons a l ih =>
    cases l with
    | nil => intro _ j hj; simp at hj
    | cons b m =>
      intro h j hj
      simp only [nonIncreasingWeights, Bool.and_eq_true, decide_eq_true_eq] at h
      cases j with
      | zero => simpa using h.1
      | succ j =>
        have hstep := ih h.2 j (by simpa using hj)
        simpa using hstep

/-- C8 counterexample: route weights `[1, 3, 2]` in discovery order.  Under
the modelled engine sort, the comparator's live `indexOf` lookups associate
the wrong weights once the first swap occurs, and the final candidate list
is `[route 1, route 0, route 2]` — route 0 (weight 1) is ranked ahead of
route 2 (weight 2), so the list is not in descending weight order. -/
theorem routeSort_not_descending_counterexample :
    rankedRouteIndexes [Dec.ofInt 1, Dec.ofInt 3, Dec.ofInt 2] = [1, 0, 2] ∧
    ([Dec.ofInt 1, Dec.ofInt 3, Dec.ofInt 2].getD 0 ⟨0⟩).val <
      ([Dec.ofInt 1, Dec.ofInt 3, Dec.ofInt 2].getD 2 ⟨0⟩).val := by
  refine ⟨by decide, by decide⟩

/-- C8 amended: the sort is not guaranteed to order candidates by descending
weight (see the counterexample: the comparator reads weights through the
route's current position in the mutating array, and returns `-1` rather than
0 on ties).  What holds: when the candidate routes are already in
non-increasing weight order — descending weight with ties in discovery
order — the sort leaves the list unchanged, so the list passed on is
descending with ties by discovery order; and the top-ranked routes passed to
the split search are always taken from the front of the sorted list. -/
theorem routeSort_preserves_descending :
    ∀ ws : List Dec, nonIncreasingWeights ws = true →
      rankedRouteIndexes ws = List.range ws.length ∧
      topTwoRouteIndexes ws = (rankedRouteIndexes ws).take 2 := by
  intro ws hw
  refine ⟨?_, rfl⟩
  unfold rankedRouteIndexes sortRoutesByWeight
  rw [List.length_range]
  exact foldl_fixed _ _ _
    (fun k _ => bubbleDown_range_fixed ws (nonIncreasingWeights_adjacent ws hw) k)

/-- Witness for C8: weights `[3, 2, 1]` are non-increasing; the sort returns
the discovery order and the top two are its first two entries. -/
theorem routeSort_preserves_descending_witness :
    nonIncreasingWeights [Dec.ofInt 3, Dec.ofInt 2, Dec.ofInt 1] = true ∧
    rankedRouteIndexes [Dec.ofInt 3, Dec.ofInt 2, Dec.ofInt 1] =
      List.range ([Dec.ofInt 3, Dec.ofInt 2, Dec.ofInt 1] : List Dec).length ∧
    topTwoRouteIndexes [Dec.ofInt 3, Dec.ofInt 2, Dec.ofInt 1] =
      (rankedRouteIndexes [Dec.ofInt 3, Dec.ofInt 2, Dec.ofInt 1]).take 2 :=
  ⟨by decide, (routeSort_preserves_descending _ (by decide)).1,
    (routeSort_preserves_descending _ (by decide)).2⟩

/-- Shape invariants of a discovered route: nonempty pool list within the
hop bound, the requested token-out denom last, and no more hop denoms than
pools. -/
def routeWellFormed (maxHops : Nat) (tokenOutDenom : String) (r : Route) : Prop :=
  1 ≤ r.pools.length ∧ r.pools.length ≤ maxHops ∧
  r.tokenOutDenoms.getLast? = some tokenOutDenom ∧
  r.tokenOutDenoms.length ≤ r.pools.length

/-- Step equation: a used pool is skipped. -/
theorem findRoutesStep_used {pools : List RPool} {inD outD : String} {cr : List RPool}
    {touts : List String} {used : List Bool} {prev : Option (List String)}
    {next : List RPool → List String → List Bool → Option (List String) →
      List Route → List Route} {routes : List Route} {i : Nat}
    (h : used.getD i false = true) :
    findRoutesStep pools inD outD cr touts used prev next routes i = routes := by
  unfold findRoutesStep
  rw [h]
  rfl

/-- Step equation: an out-of-range pool index is skipped. -/
theorem findRoutesStep_nopool {pools : List RPool} {inD outD : String} {cr : List RPool}
    {touts : List String} {used : List Bool} {prev : Option (List String)}
    {next : List RPool → List String → List Bool → Option (List String) →
      List Route → List Route} {routes : List Route} {i : Nat}
    (h : used.getD i false = false) (hp : pools.get? i = none) :
    findRoutesStep pools inD outD cr touts used prev next routes i = routes := by
  unfold findRoutesStep
  rw [h, hp]
  rfl

/-- Step equation: a pool sharing no denom with the previous hop is skipped. -/
theorem findRoutesStep_nomatch {pools : List RPool} {inD outD : String} {cr : List RPool}
    {touts : List String} {used : List Bool} {prev : Option (List String)}
    {next : List RPool → List String → List Bool → Option (List String) →
      List Route → List Route} {routes : List Route} {i : Nat} {curPool : RPool}
    (h : used.getD i false = false) (hp : pools.get? i = some curPool)
    (hm : lastMatchDenom curPool.poolAssetDenoms (prev.getD [inD]) = none) :
    findRoutesStep pools inD outD cr touts used prev next routes i = routes := by
  have h2 : findRoutesMatched inD outD cr touts used prev next routes i curPool = routes := by
    simp only [findRoutesMatched]
    rw [hm]
  unfold findRoutesStep
  rw [h, hp]
  exact h2

/-- Step equation: a matching pool is appended and the search continues. -/
theorem findRoutesStep_some {pools : List RPool} {inD outD : String} {cr : List RPool}
    {touts : List String} {used : List Bool} {prev : Option (List String)}
    {next : List RPool → List String → List Bool → Option (List String) →
      List Route → List Route} {routes : List Route} {i : Nat} {curPool : RPool} {m : String}
    (h : used.getD i false = false) (hp : pools.get? i = some curPool)
    (hm : lastMatchDenom curPool.poolAssetDenoms (prev.getD [inD]) = some m) :
    findRoutesStep pools inD outD cr touts used prev next routes i =
      next (cr ++ [curPool])
        (if 1 < (cr ++ [curPool]).length ∧ m ≠ inD ∧ m ≠ outD then touts ++ [m] else touts)
        (used.set i true) (some (curPool.poolAssetDenoms.filter (fun d => d ≠ m))) routes := by
  have h2 : findRoutesMatched inD outD cr touts used prev next routes i curPool =
      next (cr ++ [curPool])
        (if 1 < (cr ++ [curPool]).length ∧ m ≠ inD ∧ m ≠ outD then touts ++ [m] else touts)
        (used.set i true) (some (curPool.poolAssetDenoms.filter (fun d => d ≠ m))) routes := by
    simp only [findRoutesMatched]
    rw [hm]
  unfold findRoutesStep
  rw [h, hp]
  exact h2

/-- Every route the search appends is well formed, given the in-flight
invariant that the recorded intermediate denoms number at most one less than
the pools of the current path. -/
theorem findRoutesGo_wellFormed (pools : List RPool) (maxHops maxRoutes : Nat)
    (inD outD : String) :
    ∀ (fuel : Nat) (cr : List RPool) (touts : List String) (used : List Bool)
      (prev : Option (List String)) (routes : List Route),
      (∀ r ∈ routes, routeWellFormed maxHops outD r) →
      ((cr = [] ∧ touts = []) ∨ touts.length + 1 ≤ cr.length) →
      ∀ r ∈ findRoutesGo pools maxHops maxRoutes inD outD fuel cr touts used prev routes,
        routeWellFormed maxHops outD r := by
  intro fuel
  induction fuel with
  | zero =>
    intro cr touts used prev routes hroutes _ r hr
    simp only [findRoutesGo] at hr
    exact hroutes r hr
  | succ fuel ih =>
    intro cr touts used prev routes hroutes hinv r hr
    simp only [findRoutesGo] at hr
    split_ifs at hr with h1 h2 h3
    · exact hroutes r hr
    · rcases List.mem_append.mp hr with hmem | hnew
      · exact hroutes r hmem
      · have hr2 : r = ⟨cr, touts ++ [outD], inD⟩ := by simpa using hnew
        subst hr2
        have hcr : cr ≠ [] := by
          intro hnil
          rw [hnil] at h2
          simp at h2
        have hlen : 0 < cr.length := List.length_pos.mpr hcr
        have htl : touts.length + 1 ≤ cr.length := by
          rcases hinv with ⟨h, _⟩ | h
          · exact absurd h hcr
          · exact h
        refine ⟨?_, ?_, ?_, ?_⟩
        · show 1 ≤ cr.length
          omega
        · show cr.length ≤ maxHops
          omega
        · show (touts ++ [outD]).getLast? = some outD
          exact List.getLast?_concat _
        · show (touts ++ [outD]).length ≤ cr.length
          simp only [List.length_append, List.length_cons, List.length_nil]
          omega
    · exact hroutes r hr
    · refine foldl_preserve (fun acc => ∀ x ∈ acc, routeWellFormed maxHops outD x)
        _ _ ?_ routes hroutes r hr
      intro acc i _ hacc x hx
      by_cases hused : used.getD i false = true
      · rw [findRoutesStep_used hused] at hx
        exact hacc x hx
      · have hused2 : used.getD i false = false := by simpa using hused
        cases hpool : pools.get? i with
        | none =>
          rw [findRoutesStep_nopool hused2 hpool] at hx
          exact hacc x hx
        | some curPool =>
          cases hm : lastMatchDenom curPool.poolAssetDenoms (prev.getD [inD]) with
          | none =>
            rw [findRoutesStep_nomatch hused2 hpool hm] at hx
            exact hacc x hx
          | some m =>
            rw [findRoutesStep_some hused2 hpool hm] at hx
            refine ih (cr ++ [curPool]) _ (used.set i true)
              (some (curPool.poolAssetDenoms.filter (fun d => d ≠ m))) acc hacc ?_ x hx
            by_cases hcond : 1 < (cr ++ [curPool]).length ∧ m ≠ inD ∧ m ≠ outD
            · rw [if_pos hcond]
              right
              have hcr : cr ≠ [] := by
                intro hnil
                rw [hnil] at hcond
                simp at hcond
              have htl : touts.length + 1 ≤ cr.length := by
                rcases hinv with ⟨h, _⟩ | h
                · exact absurd h hcr
                · exact h
              simp only [List.length_append, List.length_cons, List.length_nil]
              omega
            · rw [if_neg hcond]
              right
              rcases hinv with ⟨h, h'⟩ | h
              · subst h; subst h'
                simp
              · simp only [List.length_append, List.length_cons, List.length_nil]
                omega

/-- C10 counterexample: `getCandidateRoutes` can produce a route with fewer
`tokenOutDenoms` entries than pools.  In the pool graph
`{0: A/B, 1: B/A, 2: A/C}` from `A` to `C`, the discovered 3-pool route
`[0, 1, 2]` records only `["B", "C"]`: the third hop's matched denom is the
token-in denom `A` itself, which the search deliberately does not record —
so `tokenOutDenoms[i]` per pool indexing is out of range at hop 1. -/
theorem getCandidateRoutes_missing_hop_denom_counterexample :
    (⟨[⟨0, ["A", "B"]⟩, ⟨1, ["B", "A"]⟩, ⟨2, ["A", "C"]⟩], ["B", "C"], "A"⟩ : Route) ∈
      getCandidateRoutes [⟨0, ["A", "B"]⟩, ⟨1, ["B", "A"]⟩, ⟨2, ["A", "C"]⟩] 4 4 "A" "C" ∧
    (⟨[⟨0, ["A", "B"]⟩, ⟨1, ["B", "A"]⟩, ⟨2, ["A", "C"]⟩], ["B", "C"], "A"⟩ :
      Route).tokenOutDenoms.length = 2 ∧
    (⟨[⟨0, ["A", "B"]⟩, ⟨1, ["B", "A"]⟩, ⟨2, ["A", "C"]⟩], ["B", "C"], "A"⟩ :
      Route).pools.length = 3 := by
  refine ⟨by decide, by decide, by decide⟩

/-- C10 amended: every route produced by `getCandidateRoutes` has between 1
and `maxHops` pools, ends its `tokenOutDenoms` with the requested token-out
denomination, and has at most — not always exactly — one `tokenOutDenoms`
entry per pool (see the counterexample for a route with fewer). -/
theorem getCandidateRoutes_route_invariants :
    ∀ (pools : List RPool) (maxHops maxRoutes : Nat) (tokenInDenom tokenOutDenom : String)
      (r : Route),
      r ∈ getCandidateRoutes pools maxHops maxRoutes tokenInDenom tokenOutDenom →
      1 ≤ r.pools.length ∧ r.pools.length ≤ maxHops ∧
      r.tokenOutDenoms.getLast? = some tokenOutDenom ∧
      r.tokenOutDenoms.length ≤ r.pools.length := by
  intro pools maxHops maxRoutes inD outD r hr
  unfold getCandidateRoutes at hr
  split_ifs at hr with hp
  · simp at hr
  · exact findRoutesGo_wellFormed pools maxHops maxRoutes inD outD (maxHops + 2)
      [] [] (List.replicate pools.length false) none [] (by simp) (Or.inl ⟨rfl, rfl⟩) r
      (List.mem_of_mem_filter hr)

/-- Witness for C10: the direct route `[pool 2]` from `A` to `C` is a member
of the candidate set and satisfies all the invariants. -/
theorem getCandidateRoutes_route_invariants_witness :
    (⟨[⟨2, ["A", "C"]⟩], ["C"], "A"⟩ : Route) ∈
      getCandidateRoutes [⟨0, ["A", "B"]⟩, ⟨1, ["B", "A"]⟩, ⟨2, ["A", "C"]⟩] 4 4 "A" "C" ∧
    (1 ≤ (⟨[⟨2, ["A", "C"]⟩], ["C"], "A"⟩ : Route).pools.length ∧
      (⟨[⟨2, ["A", "C"]⟩], ["C"], "A"⟩ : Route).pools.length ≤ 4 ∧
      (⟨[⟨2, ["A", "C"]⟩], ["C"], "A"⟩ : Route).tokenOutDenoms.getLast? = some "C" ∧
      (⟨[⟨2, ["A", "C"]⟩], ["C"], "A"⟩ : Route).tokenOutDenoms.length ≤
        (⟨[⟨2, ["A", "C"]⟩], ["C"], "A"⟩ : Route).pools.length) :=
  ⟨by decide,
    getCandidateRoutes_route_invariants [⟨0, ["A", "B"]⟩, ⟨1, ["B", "A"]⟩, ⟨2, ["A", "C"]⟩]
      4 4 "A" "C" _ (by decide)⟩

/-- Monotonicity of half-away rounding at the decimal scale. -/
theorem chopRoundNat_mono_P18 {x y : Nat} (h : x ≤ y) :
    chopRoundNat x P18 ≤ chopRoundNat y P18 := by
  unfold chopRoundNat P18
  split_ifs with h1 h2 <;> omega

/-- Truncated division of non-negatives is plain natural division. -/
theorem tdiv_nonneg_eq {a b : Int} (ha : 0 ≤ a) (hb : 0 ≤ b) :
    tdiv a b = ((a.natAbs / b.natAbs : Nat) : Int) := by
  unfold tdiv
  rw [if_pos (iff_of_false (not_lt.mpr ha) (not_lt.mpr hb))]

/-- Half-away rounding of a non-negative integer reduces to the natural case. -/
theorem chopRound_nonneg_eq {x : Int} (hx : 0 ≤ x) (p : Nat) :
    chopRound x p = ((chopRoundNat x.natAbs p : Nat) : Int) := by
  unfold chopRound
  rw [if_neg (not_lt.mpr hx)]

/-- Half-away rounding is non-negative on non-negative input. -/
theorem chopRound_nonneg {x : Int} (hx : 0 ≤ x) (p : Nat) : 0 ≤ chopRound x p := by
  rw [chopRound_nonneg_eq hx]
  exact Int.ofNat_nonneg _

/-- Monotonicity of half-away rounding on non-negative integers. -/
theorem chopRound_mono_nonneg {x y : Int} (hx : 0 ≤ x) (hxy : x ≤ y) :
    chopRound x P18 ≤ chopRound y P18 := by
  rw [chopRound_nonneg_eq hx, chopRound_nonneg_eq (le_trans hx hxy)]
  have hab : x.natAbs ≤ y.natAbs := by omega
  exact_mod_cast chopRoundNat_mono_P18 hab

/-- Half-away rounding is exact on multiples of the scale. -/
theorem chopRound_exact {k : Int} (hk : 0 ≤ k) : chopRound (k * P18Z) P18 = k := by
  have hkp : (0 : Int) ≤ k * P18Z := by
    have : (0 : Int) ≤ P18Z := by decide
    exact mul_nonneg hk this
  rw [chopRound_nonneg_eq hkp]
  have habs : (k * P18Z).natAbs = k.natAbs * P18 := by
    simp [Int.natAbs_mul, P18Z, P18]
  rw [habs]
  have hchop : chopRoundNat (k.natAbs * P18) P18 = k.natAbs := by
    unfold chopRoundNat P18
    split_ifs with h1 <;> omega
  rw [hchop]
  exact Int.natAbs_of_nonneg hk

/-- The allocation fraction `i / maxIterations` of the split search lies in
`[0, 1]` for `i ≤ maxIterations`. -/
theorem splitQuotient_bounds (i N : Nat) (hi : i ≤ N) :
    0 ≤ ((Dec.ofInt i).quo (Dec.ofInt N)).val ∧
      ((Dec.ofInt i).quo (Dec.ofInt N)).val ≤ P18Z := by
  have ha1 : (((i : Int) * P18Z) * P36Z).natAbs = i * P18 * P36 := by
    simp [Int.natAbs_mul, P18Z, P36Z, P18, P36]
  have ha2 : (((N : Int)) * P18Z).natAbs = N * P18 := by
    simp [Int.natAbs_mul, P18Z, P18]
  have hq : tdiv (((i : Int) * P18Z) * P36Z) ((N : Int) * P18Z) =
      (((i * P18 * P36 : Nat) / (N * P18 : Nat) : Nat) : Int) := by
    rw [tdiv_nonneg_eq
        (mul_nonneg (mul_nonneg (Int.ofNat_nonneg i) (by decide)) (by decide))
        (mul_nonneg (Int.ofNat_nonneg N) (by decide)), ha1, ha2]
  have harg : (i * P18 * P36 : Nat) / (N * P18 : Nat) ≤ P36 := by
    rcases Nat.eq_zero_or_pos N with hN | hN
    · subst hN
      have : i = 0 := by omega
      subst this
      simp
    · have hmul : i * P18 * P36 ≤ N * P18 * P36 :=
        Nat.mul_le_mul_right _ (Nat.mul_le_mul_right _ hi)
      have := Nat.div_le_div_right (c := N * P18) hmul
      calc (i * P18 * P36 : Nat) / (N * P18) ≤ (N * P18 * P36) / (N * P18) := this
        _ = P36 := by
            rw [Nat.mul_comm (N * P18) P36]
            exact Nat.mul_div_cancel P36 (Nat.mul_pos hN (by decide))
  constructor
  · simp only [Dec.quo, Dec.ofInt]
    exact chopRound_nonneg (by rw [hq]; exact Int.ofNat_nonneg _) P18
  · simp only [Dec.quo, Dec.ofInt]
    have h1 : chopRound (tdiv (((i : Int) * P18Z) * P36Z) ((N : Int) * P18Z)) P18 ≤
        chopRound ((P36 : Int)) P18 := by
      apply chopRound_mono_nonneg (by rw [hq]; exact Int.ofNat_nonneg _)
      rw [hq]
      exact_mod_cast harg
    calc chopRound (tdiv (((i : Int) * P18Z) * P36Z) ((N : Int) * P18Z)) P18 ≤
        chopRound ((P36 : Int)) P18 := h1
      _ = P18Z := by decide

/-- The allocated input of one split-search step is between 0 and the
remaining amount. -/
theorem splitFraction_bounds {N i : Nat} {remaining : Int} (hrem : 0 ≤ remaining)
    (hi : i ≤ N) :
    0 ≤ splitFraction N i remaining ∧ splitFraction N i remaining ≤ remaining := by
  obtain ⟨hf0, hf1⟩ := splitQuotient_bounds i N hi
  set F := ((Dec.ofInt i).quo (Dec.ofInt N)).val with hF
  have hm0 : (0 : Int) ≤ remaining * P18Z * F :=
    mul_nonneg (mul_nonneg hrem (by decide)) hf0
  have hm1 : remaining * P18Z * F ≤ remaining * P18Z * P18Z :=
    mul_le_mul_of_nonneg_left hf1 (mul_nonneg hrem (by decide))
  have hval0 : 0 ≤ chopRound (remaining * P18Z * F) P18 := chopRound_nonneg hm0 P18
  have hval1 : chopRound (remaining * P18Z * F) P18 ≤ remaining * P18Z := by
    calc chopRound (remaining * P18Z * F) P18 ≤ chopRound (remaining * P18Z * P18Z) P18 :=
          chopRound_mono_nonneg hm0 hm1
      _ = remaining * P18Z := chopRound_exact (mul_nonneg hrem (by decide))
  have hsplit : splitFraction N i remaining =
      chopTrunc (chopRound (remaining * P18Z * F) P18) P18 := by
    simp only [splitFraction, Dec.truncate, Dec.mul, Dec.ofInt, hF]
  rw [hsplit]
  unfold chopTrunc
  rw [if_neg (not_lt.mpr hval0)]
  constructor
  · exact Int.ofNat_nonneg _
  · have habs : (chopRound (remaining * P18Z * F) P18).natAbs ≤ remaining.natAbs * P18 := by
      have h2 : (remaining * P18Z).natAbs = remaining.natAbs * P18 := by
        simp [Int.natAbs_mul, P18Z, P18]
      omega
    have hdiv : (chopRound (remaining * P18Z * F) P18).natAbs / P18 ≤ remaining.natAbs := by
      have := Nat.div_le_div_right (c := P18) habs
      calc (chopRound (remaining * P18Z * F) P18).natAbs / P18 ≤
          remaining.natAbs * P18 / P18 := this
        _ = remaining.natAbs := Nat.mul_div_cancel _ (by decide)
    calc ((chopRound (remaining * P18Z * F) P18).natAbs / P18 : Int) ≤
        (remaining.natAbs : Int) := by exact_mod_cast hdiv
      _ = remaining := Int.natAbs_of_nonneg hrem

/-- Appending an entry adds its input amount to the in-flight sum. -/
theorem sumEntriesIn_append (cur : List (Nat × Int × Int)) (e : Nat × Int × Int) :
    sumEntriesIn (cur ++ [e]) = sumEntriesIn cur + e.2.1 := by
  simp [sumEntriesIn]

/-- The recorded copy of a split sums the same input amounts as the
in-flight entries. -/
theorem sumSplitIn_map (cur : List (Nat × Int × Int)) :
    sumSplitIn (cur.map (fun e => (e.1, e.2.1))) = sumEntriesIn cur := by
  simp only [sumSplitIn, sumEntriesIn, List.map_map]
  rfl

/-- Core invariant of the `part_007` split search: every recorded best split
allocates at most the bound `B` covering the in-flight allocations plus the
remaining input, so no split allocating more than the requested total is
ever returned. -/
theorem splitRecursive7_sum_le (o : Nat → Int → Int) (N : Nat) (B : Int) :
    ∀ (fuel : Nat) (rem : List Nat) (remaining : Int) (cur : List (Nat × Int × Int))
      (best : List (Nat × Int) × Int),
      0 ≤ remaining → sumEntriesIn cur + remaining ≤ B → sumSplitIn best.1 ≤ B →
      sumSplitIn (splitRecursive7 o N fuel rem remaining cur best).1 ≤ B := by
  intro fuel
  induction fuel with
  | zero =>
    intro rem remaining cur best h0 h1 h2
    simp only [splitRecursive7]
    exact h2
  | succ fuel ih =>
    intro rem remaining cur best h0 h1 h2
    cases rem with
    | nil =>
      simp only [splitRecursive7]
      split_ifs with ht
      · show sumSplitIn (cur.map (fun e => (e.1, e.2.1))) ≤ B
        rw [sumSplitIn_map]
        omega
      · exact h2
    | cons r rest =>
      simp only [splitRecursive7]
      refine foldl_preserve (fun best => sumSplitIn best.1 ≤ B) _ _ ?_ best h2
      intro b i hi hb
      have hiN : i ≤ N := by
        have := List.mem_range.mp hi
        omega
      obtain ⟨hf0, hf1⟩ := splitFraction_bounds (N := N) (i := i) h0 hiN
      simp only [splitStep7]
      split_ifs with hz ho
      · exact hb
      · exact hb
      · refine ih rest (remaining - splitFraction N i remaining)
          (cur ++ [(r, splitFraction N i remaining, o r (splitFraction N i remaining))]) b
          (by omega) ?_ hb
        rw [sumEntriesIn_append]
        show sumEntriesIn cur + splitFraction N i remaining +
          (remaining - splitFraction N i remaining) ≤ B
        omega

/-- C3 counterexample: the `part_008` `findBestSplitTokenIn` can return a
split that does not sum to the requested input and throws nothing.  With two
candidate routes, requested input 10 and the oracle yielding output only for
allocations `(route 0, 5)` and `(route 1, 2)`, it returns allocations
`[(0, 10), (1, 5)]` summing to 15: the winning split is recorded as a
shallow copy of route references whose `initialAmount` fields the rest of
the search keeps mutating, and the final under-allocation check of the
`part_007` version is absent. -/
theorem findBestSplitTokenIn8_misallocates :
    findBestSplitTokenIn8 cexOracle 2 10 10 = .ok [(0, 10), (1, 5)] ∧
    sumSplitIn [(0, 10), (1, 5)] ≠ 10 := by
  refine ⟨by decide, by decide⟩

/-- C3 amended (holds for the `part_007` version): for two or more candidate
routes, a positive requested amount and a positive iteration bound,
`findBestSplitTokenIn` either throws `NotEnoughLiquidityError` (its only
possible error) or returns a split whose allocations sum exactly to the
requested input — never an over- or under-allocation.  The `part_008`
version violates this (see the counterexample). -/
theorem findBestSplitTokenIn7_split_completeness :
    ∀ (o : Nat → Int → Int) (routes : List Nat) (tokenInAmount : Int) (maxIterations : Nat),
      2 ≤ routes.length → 0 < tokenInAmount → 1 ≤ maxIterations →
      (∀ e, findBestSplitTokenIn7 o routes tokenInAmount maxIterations = .error e →
        e = .notEnoughLiquidity) ∧
      (∀ split, findBestSplitTokenIn7 o routes tokenInAmount maxIterations = .ok split →
        sumSplitIn split = tokenInAmount) := by
  intro o routes tokenInAmount maxIterations hlen hpos hN
  cases routes with
  | nil => simp at hlen
  | cons r1 t =>
    cases t with
    | nil => simp at hlen
    | cons r2 rest =>
      have hsum : sumSplitIn (splitRecursive7 o maxIterations ((r1 :: r2 :: rest).length + 1)
          (r1 :: r2 :: rest) tokenInAmount [] ([], 0)).1 ≤ tokenInAmount := by
        have g1 : (0 : Int) ≤ tokenInAmount := le_of_lt hpos
        have g2 : sumEntriesIn [] + tokenInAmount ≤ tokenInAmount := by simp [sumEntriesIn]
        have g3 : sumSplitIn (([], 0) : List (Nat × Int) × Int).1 ≤ tokenInAmount := by
          simp only [sumSplitIn, List.map_nil, List.sum_nil]
          exact g1
        exact splitRecursive7_sum_le o maxIterations tokenInAmount _ _ _ _ _ g1 g2 g3
      have heq : findBestSplitTokenIn7 o (r1 :: r2 :: rest) tokenInAmount maxIterations =
          (if sumSplitIn (splitRecursive7 o maxIterations ((r1 :: r2 :: rest).length + 1)
              (r1 :: r2 :: rest) tokenInAmount [] ([], 0)).1 < tokenInAmount then
            .error .notEnoughLiquidity
          else .ok (splitRecursive7 o maxIterations ((r1 :: r2 :: rest).length + 1)
              (r1 :: r2 :: rest) tokenInAmount [] ([], 0)).1) := by
        unfold findBestSplitTokenIn7
        rw [if_neg (by omega : ¬ maxIterations = 0)]
      by_cases hlt : sumSplitIn (splitRecursive7 o maxIterations
          ((r1 :: r2 :: rest).length + 1) (r1 :: r2 :: rest) tokenInAmount [] ([], 0)).1 <
          tokenInAmount
      · constructor
        · intro e he
          rw [heq, if_pos hlt] at he
          cases he
          rfl
        · intro split hs
          rw [heq, if_pos hlt] at hs
          cases hs
      · constructor
        · intro e he
          rw [heq, if_neg hlt] at he
          cases he
        · intro split hs
          rw [heq, if_neg hlt] at hs
          cases hs
          omega

/-- Witness for C3: two routes whose output equals their input; the best
split allocates `[(0, 1), (1, 9)]`, summing exactly to the requested 10. -/
theorem findBestSplitTokenIn7_split_completeness_witness :
    2 ≤ ([0, 1] : List Nat).length ∧ (0 : Int) < 10 ∧ 1 ≤ 10 ∧
    sumSplitIn [(0, 1), (1, 9)] = 10 :=
  ⟨by decide, by decide, by decide,
    (findBestSplitTokenIn7_split_completeness (fun _ a => a) [0, 1] 10 10
      (by decide) (by decide) (by decide)).2 [(0, 1), (1, 9)] (by decide)⟩
